import Mathlib

/-! # docker-shell: completion resolution

A shallow embedding of the completion path of `main.go`: the context extractor
(`commandExpression`, `getRegexGroups`), the registry `subCommands`, the catalog search
(`imageFromHubAPI`, `imageFromContext`, `imageFetchCompleter`), the look-aside cache
(`memoryCache`, `getFromCache`), the live resource lister (`containerListCompleter`) and the
resolver `completer`.

Go strings are modelled by `String` (valid Unicode text).  What the program obtains from
outside (the Docker daemon, the Hub endpoint, the JSON decoder, the Unicode case tables and the
time an external call takes) is collected in `Env`; the mutable state (the clock, the items of
the cache and the log of external calls) is the `World`, which every effectful function
threads explicitly.
-/

namespace DockerShell

set_option linter.unusedVariables false

/-! ## Library types -/

/-- The type `prompt.Suggest` of go-prompt. -/
structure Suggest where
  Text : String
  Description : String
  deriving DecidableEq

/-- The fields of `registry.SearchResult` that the JSON decoder fills. -/
structure SearchResult where
  StarCount : Int
  IsOfficial : Bool
  Name : String
  IsAutomated : Bool
  Description : String
  deriving DecidableEq

/-- Of `types.Container` the program reads the fields `ID` and `Image` only. -/
structure Container where
  ID : String
  Image : String
  deriving DecidableEq

/-- A Go `error` value: `none` is `nil`. -/
abbrev GoError := Option String

/-- The struct `DockerHubResult` of `main.go`. -/
structure DockerHubResult where
  PageCount : Option Int
  ResultCount : Option Int
  ItemCountPerPage : Option Int
  CurrentPage : Option Int
  Query : Option String
  Items : List SearchResult

/-- A `time.Duration`, in nanoseconds. -/
abbrev Duration := Int

def Second : Duration := 1000000000

def Minute : Duration := 60 * Second

/-- The largest int64. -/
def maxInt64 : Int := 9223372036854775807

/-- The method `Time.UnixNano` on a time given in nanoseconds since the epoch: the count as an
int64, which wraps around outside the int64 range. -/
def UnixNano (t : Int) : Int :=
  (t + 9223372036854775808) % 18446744073709551616 - 9223372036854775808

/-- The struct `url.URL`, with the fields the program sets. -/
structure URL where
  Scheme : String
  Host : String
  Path : String
  RawQuery : String

/-- The method `(*url.URL).String` for a URL with scheme, host, absolute path and query. -/
def URL.String (u : URL) : String :=
  u.Scheme ++ "://" ++ u.Host ++ u.Path ++ "?" ++ u.RawQuery

/-- The function `strconv.Itoa` on a non-negative count. -/
def Itoa (n : Nat) : String := toString n

/-- An `http.Request`: method, URL and header lines. -/
structure Request where
  Method : String
  Url : String
  Header : List (String × String)
  deriving DecidableEq

/-- The function `http.NewRequest` with a nil body. It fails only on an invalid method or an
unparsable URL; the program calls it with the method GET and a URL that parses. -/
def NewRequest (method url : String) : Option Request :=
  some ⟨method, url, []⟩

/-- The method `Header.Add`. -/
def Request.HeaderAdd (r : Request) (key value : String) : Request :=
  ⟨r.Method, r.Url, r.Header ++ [(key, value)]⟩

/-- The struct `types.ImageSearchOptions`, field `Limit`. -/
structure ImageSearchOptions where
  Limit : Nat
  deriving DecidableEq

/-- The struct `types.ContainerListOptions`, field `All`. -/
structure ContainerListOptions where
  All : Bool
  deriving DecidableEq

/-- An external call issued by the program, with the deadline it carries
(`none`: the call is made under `context.Background()`, without deadline). -/
inductive Call where
  | httpDo (req : Request) (timeout : Duration)
  | ImageSearch (term : String) (options : ImageSearchOptions) (timeout : Option Duration)
  | ContainerList (options : ContainerListOptions) (timeout : Option Duration)
  deriving DecidableEq

/-- What the program obtains from outside its own source. -/
structure Env where
  /-- The Unicode upper-case mapping of `unicode.ToUpper` above the ASCII range. -/
  caseTable : Char → Char
  /-- The outcome of `client.Do`: the response body, or `none` on a transport error or timeout. -/
  httpDo : Request → Option String
  /-- The struct left by `decoder.Decode(searchResult)` and the error Decode returns. -/
  jsonDecode : String → DockerHubResult × GoError
  /-- The pair returned by `dockerClient.ImageSearch`. -/
  ImageSearch : String → ImageSearchOptions → List SearchResult × GoError
  /-- The pair returned by `dockerClient.ContainerList`. -/
  ContainerList : ContainerListOptions → List Container × GoError
  /-- The time an external call takes, in nanoseconds. -/
  latency : Call → Nat

/-! ## The look-aside cache (go-cache) -/

/-- The struct `cache.Item`: `Expiration` is a Unix time in int64 nanoseconds, 0 for no
expiry. -/
structure Item where
  Object : List Suggest
  Expiration : Int
  deriving DecidableEq

/-- The immutable part of a `cache.Cache`: the default expiry and the janitor interval. -/
structure Cache where
  defaultExpiration : Duration
  cleanupInterval : Duration
  deriving DecidableEq

/-- The mutable part of a `cache.Cache`: its map `items`. -/
abbrev Items := String → Option Item

/-- The constant `cache.DefaultExpiration`. -/
def DefaultExpiration : Duration := 0

/-- The constructor `cache.New`. -/
def New (defaultExpiration cleanupInterval : Duration) : Cache :=
  ⟨defaultExpiration, cleanupInterval⟩

/-- The method `Get`: an item is found when it is stored and, if it has an expiry, the clock has
not passed it. -/
def Cache.Get (c : Cache) (items : Items) (now : Nat) (k : String) : Option (List Suggest) :=
  match items k with
  | none => none
  | some item =>
    if item.Expiration > 0 then
      if UnixNano (now : Int) > item.Expiration then none else some item.Object
    else some item.Object

/-- The method `Set`: the item replaces whatever the key held; its expiry is
`time.Now().Add(d).UnixNano()`. -/
def Cache.Set (c : Cache) (items : Items) (now : Nat) (k : String) (x : List Suggest)
    (d : Duration) : Items :=
  let d := if d = DefaultExpiration then c.defaultExpiration else d
  let e : Int := if d > 0 then UnixNano ((now : Int) + d) else 0
  fun key => if key = k then some ⟨x, e⟩ else items key

/-- The method `DeleteExpired`, which the janitor runs every `cleanupInterval`. -/
def Cache.DeleteExpired (c : Cache) (items : Items) (now : Nat) : Items :=
  fun key =>
    match items key with
    | none => none
    | some item =>
      if item.Expiration > 0 ∧ UnixNano (now : Int) > item.Expiration then none else some item

/-- The mutable state: the clock in nanoseconds since the epoch, the items of `memoryCache`,
and the external calls made so far, oldest first. -/
structure World where
  now : Nat
  items : Items
  calls : List Call

/-- An external call is logged and takes its time. -/
def World.record (w : World) (env : Env) (c : Call) : World :=
  { w with now := w.now + env.latency c, calls := w.calls ++ [c] }

/-! ## Strings and the prefix filter (strings, go-prompt) -/

/-- The function `unicode.ToUpper`: inside ASCII the letters a to z are shifted, above ASCII the
case table decides. -/
def unicodeToUpper (caseTable : Char → Char) (r : Char) : Char :=
  if r.toNat ≤ 127 then
    if 'a'.toNat ≤ r.toNat ∧ r.toNat ≤ 'z'.toNat then Char.ofNat (r.toNat - 32) else r
  else caseTable r

/-- The function `strings.ToUpper`. -/
def ToUpper (caseTable : Char → Char) (s : String) : String :=
  ⟨s.data.map (unicodeToUpper caseTable)⟩

/-- The function `strings.HasPrefix`. -/
def HasPrefix (s pre : String) : Bool :=
  pre.data.isPrefixOf s.data

/-- The function `filterSuggestions` of go-prompt. -/
def filterSuggestions (caseTable : Char → Char) (suggestions : List Suggest) (sub : String)
    (ignoreCase : Bool) (function : String → String → Bool) : List Suggest :=
  if sub = "" then suggestions
  else
    let sub := if ignoreCase then ToUpper caseTable sub else sub
    suggestions.foldl
      (fun ret s =>
        let c := if ignoreCase then ToUpper caseTable s.Text else s.Text
        if function c sub then ret ++ [s] else ret)
      []

/-- The function `prompt.FilterHasPrefix`. -/
def FilterHasPrefix (caseTable : Char → Char) (completions : List Suggest) (sub : String)
    (ignoreCase : Bool) : List Suggest :=
  filterSuggestions caseTable completions sub ignoreCase HasPrefix

/-! ## The context extractor -/

/-- The alternatives of the group `command` of `commandExpression`, in pattern order. -/
def commandAlternatives : List String := [
  "exec", "stop", "start", "service create", "service inspect", "service logs", "service ls",
  "service ps", "service rollback", "service scale", "service update", "service", "pull",
  "attach", "build", "commit", "cp", "create", "events", "export", "history", "images",
  "import", "info", "inspect", "kill", "load", "login", "logs", "ps", "push", "restart", "rm",
  "rmi", "run", "save", "search", "stack", "stats", "update", "version"]

/-- The class `\s` of Go regular expressions: tab, newline, form feed, carriage return, space. -/
def isSpace (c : Char) : Bool :=
  c = '\t' || c = '\n' || c = Char.ofNat 12 || c = '\r' || c = ' '

/-- One alternative followed by `\s{1}`, tried at the start of `s`: on success the text matched
by the whole pattern and the text of the group. -/
def matchAlt (t : String) (s : List Char) : Option (List String) :=
  if t.data.isPrefixOf s then
    match s.drop t.data.length with
    | c :: _ => if isSpace c then some [⟨t.data ++ [c]⟩, t] else none
    | [] => none
  else none

/-- The pattern tried at the start of `s`: the alternatives in order, the first that succeeds
wins (leftmost-first preference). -/
def matchHere (alts : List String) (s : List Char) : Option (List String) :=
  alts.findSome? (fun t => matchAlt t s)

/-- The unanchored search: the leftmost start position at which the pattern matches. -/
def findFrom : List Char → Option (List String)
  | [] => matchHere commandAlternatives []
  | c :: cs =>
    match matchHere commandAlternatives (c :: cs) with
    | some m => some m
    | none => findFrom cs

/-- The method `commandExpression.Match`. -/
def commandExpression.Match (text : String) : Bool :=
  (findFrom text.data).isSome

/-- The method `commandExpression.FindStringSubmatch`; the nil slice is the empty list. -/
def commandExpression.FindStringSubmatch (text : String) : List String :=
  (findFrom text.data).getD []

/-- The method `commandExpression.SubexpNames`: the whole match is unnamed. -/
def commandExpression.SubexpNames : List String := ["", "command"]

/-- A Go `map[string]string`, as the list of its entries. -/
abbrev StringMap := List (String × String)

/-- The assignment `m[k] = v`. -/
def StringMap.set (m : StringMap) (k v : String) : StringMap :=
  if m.any (fun e => e.1 = k) then m.map (fun e => if e.1 = k then (k, v) else e)
  else m ++ [(k, v)]

/-- The index expression `m[k]`, the empty string for a missing key. -/
def StringMap.get (m : StringMap) (k : String) : String :=
  (m.lookup k).getD ""

/-- The function `getRegexGroups`; `none` is the nil map. -/
def getRegexGroups (text : String) : Option StringMap :=
  if !commandExpression.Match text then none
  else
    let m := commandExpression.FindStringSubmatch text
    some (commandExpression.SubexpNames.enum.foldl
      (fun result p => if p.1 ≠ 0 ∧ p.2 ≠ "" then result.set p.2 (m.getD p.1 "") else result)
      [])

/-! ## The registry -/

/-- The value of `subCommands` under the key "attach". -/
def tableAttach : List Suggest := [
  Suggest.mk "--detach-keys" "Override the key sequence for detaching a container",
  Suggest.mk "--no-stdin" "Do not attach STDIN",
  Suggest.mk "--sig-proxy" "Proxy all received signals to the process"
]

/-- The value of `subCommands` under the key "build". -/
def tableBuild : List Suggest := [
  Suggest.mk "--add-host" "Add a custom host-to-IP mapping (host:ip)",
  Suggest.mk "--build-arg" "Set build-time variables",
  Suggest.mk "--cache-from" "Images to consider as cache sources",
  Suggest.mk "--cgroup-parent" "Optional parent cgroup for the container",
  Suggest.mk "--compress" "Compress the build context using gzip",
  Suggest.mk "--cpu-period" "Limit the CPU CFS (Completely Fair Scheduler) period",
  Suggest.mk "--cpu-quota" "Limit the CPU CFS (Completely Fair Scheduler) quota",
  Suggest.mk "--cpu-shares" "CPU shares (relative weight)",
  Suggest.mk "--cpuset-cpus" "CPUs in which to allow execution (0-3, 0,1)",
  Suggest.mk "--cpuset-mems" "MEMs in which to allow execution (0-3, 0,1)",
  Suggest.mk "--disable-content-trust" "Skip image verification",
  Suggest.mk "--file" "Name of the Dockerfile (Default is ‘PATH/Dockerfile’)",
  Suggest.mk "--force-rm" "Always remove intermediate containers",
  Suggest.mk "--iidfile" "Write the image ID to the file",
  Suggest.mk "--isolation" "Container isolation technology",
  Suggest.mk "--label" "Set metadata for an image",
  Suggest.mk "--memory" "Memory limit",
  Suggest.mk "--memory-swap" "Swap limit equal to memory plus swap: ‘-1’ to enable unlimited swap",
  Suggest.mk "--network" "",
  Suggest.mk "--no-cache" "Do not use cache when building the image",
  Suggest.mk "--output" "",
  Suggest.mk "--platform" "",
  Suggest.mk "--progress" "Set type of progress output (auto, plain, tty). Use plain to show container output",
  Suggest.mk "--pull" "Always attempt to pull a newer version of the image",
  Suggest.mk "--quiet" "Suppress the build output and print image ID on success",
  Suggest.mk "--rm" "Remove intermediate containers after a successful build",
  Suggest.mk "--secret" "",
  Suggest.mk "--security-opt" "Security options",
  Suggest.mk "--shm-size" "Size of /dev/shm",
  Suggest.mk "--squash" "",
  Suggest.mk "--ssh" "",
  Suggest.mk "--stream" "",
  Suggest.mk "--tag" "Name and optionally a tag in the ‘name:tag’ format",
  Suggest.mk "--target" "Set the target build stage to build.",
  Suggest.mk "--ulimit" "Ulimit options"
]

/-- The value of `subCommands` under the key "commit". -/
def tableCommit : List Suggest := [
  Suggest.mk "--author" "Author (e.g., “John Hannibal Smith ",
  Suggest.mk "--change" "Apply Dockerfile instruction to the created image",
  Suggest.mk "--message" "Commit message",
  Suggest.mk "--pause" "Pause container during commit"
]

/-- The value of `subCommands` under the key "cp". -/
def tableCp : List Suggest := [
  Suggest.mk "--archive" "Archive mode (copy all uid/gid information)",
  Suggest.mk "--follow-link" "Always follow symbol link in SRC_PATH"
]

/-- The value of `subCommands` under the key "create". -/
def tableCreate : List Suggest := [
  Suggest.mk "--add-host" "Add a custom host-to-IP mapping (host:ip)",
  Suggest.mk "--attach" "Attach to STDIN, STDOUT or STDERR",
  Suggest.mk "--blkio-weight" "Block IO (relative weight), between 10 and 1000, or 0 to disable (default 0)",
  Suggest.mk "--blkio-weight-device" "Block IO weight (relative device weight)",
  Suggest.mk "--cap-add" "Add Linux capabilities",
  Suggest.mk "--cap-drop" "Drop Linux capabilities",
  Suggest.mk "--cgroup-parent" "Optional parent cgroup for the container",
  Suggest.mk "--cidfile" "Write the container ID to the file",
  Suggest.mk "--cpu-count" "CPU count (Windows only)",
  Suggest.mk "--cpu-percent" "CPU percent (Windows only)",
  Suggest.mk "--cpu-period" "Limit CPU CFS (Completely Fair Scheduler) period",
  Suggest.mk "--cpu-quota" "Limit CPU CFS (Completely Fair Scheduler) quota",
  Suggest.mk "--cpu-rt-period" "",
  Suggest.mk "--cpu-rt-runtime" "",
  Suggest.mk "--cpu-shares" "CPU shares (relative weight)",
  Suggest.mk "--cpus" "",
  Suggest.mk "--cpuset-cpus" "CPUs in which to allow execution (0-3, 0,1)",
  Suggest.mk "--cpuset-mems" "MEMs in which to allow execution (0-3, 0,1)",
  Suggest.mk "--device" "Add a host device to the container",
  Suggest.mk "--device-cgroup-rule" "Add a rule to the cgroup allowed devices list",
  Suggest.mk "--device-read-bps" "Limit read rate (bytes per second) from a device",
  Suggest.mk "--device-read-iops" "Limit read rate (IO per second) from a device",
  Suggest.mk "--device-write-bps" "Limit write rate (bytes per second) to a device",
  Suggest.mk "--device-write-iops" "Limit write rate (IO per second) to a device",
  Suggest.mk "--disable-content-trust" "Skip image verification",
  Suggest.mk "--dns" "Set custom DNS servers",
  Suggest.mk "--dns-opt" "Set DNS options",
  Suggest.mk "--dns-option" "Set DNS options",
  Suggest.mk "--dns-search" "Set custom DNS search domains",
  Suggest.mk "--domainname" "Container NIS domain name",
  Suggest.mk "--entrypoint" "Overwrite the default ENTRYPOINT of the image",
  Suggest.mk "--env" "Set environment variables",
  Suggest.mk "--env-file" "Read in a file of environment variables",
  Suggest.mk "--expose" "Expose a port or a range of ports",
  Suggest.mk "--gpus" "",
  Suggest.mk "--group-add" "Add additional groups to join",
  Suggest.mk "--health-cmd" "Command to run to check health",
  Suggest.mk "--health-interval" "Time between running the check (ms|s|m|h) (default 0s)",
  Suggest.mk "--health-retries" "Consecutive failures needed to report unhealthy",
  Suggest.mk "--health-start-period" "",
  Suggest.mk "--health-timeout" "Maximum time to allow one check to run (ms|s|m|h) (default 0s)",
  Suggest.mk "--help" "Print usage",
  Suggest.mk "--hostname" "Container host name",
  Suggest.mk "--init" "",
  Suggest.mk "--interactive" "Keep STDIN open even if not attached",
  Suggest.mk "--io-maxbandwidth" "Maximum IO bandwidth limit for the system drive (Windows only)",
  Suggest.mk "--io-maxiops" "Maximum IOps limit for the system drive (Windows only)",
  Suggest.mk "--ip" "IPv4 address (e.g., 172.30.100.104)",
  Suggest.mk "--ip6" "IPv6 address (e.g., 2001:db8::33)",
  Suggest.mk "--ipc" "IPC mode to use",
  Suggest.mk "--isolation" "Container isolation technology",
  Suggest.mk "--kernel-memory" "Kernel memory limit",
  Suggest.mk "--label" "Set meta data on a container",
  Suggest.mk "--label-file" "Read in a line delimited file of labels",
  Suggest.mk "--link" "Add link to another container",
  Suggest.mk "--link-local-ip" "Container IPv4/IPv6 link-local addresses",
  Suggest.mk "--log-driver" "Logging driver for the container",
  Suggest.mk "--log-opt" "Log driver options",
  Suggest.mk "--mac-address" "Container MAC address (e.g., 92:d0:c6:0a:29:33)",
  Suggest.mk "--memory" "Memory limit",
  Suggest.mk "--memory-reservation" "Memory soft limit",
  Suggest.mk "--memory-swap" "Swap limit equal to memory plus swap: ‘-1’ to enable unlimited swap",
  Suggest.mk "--memory-swappiness" "Tune container memory swappiness (0 to 100)",
  Suggest.mk "--mount" "Attach a filesystem mount to the container",
  Suggest.mk "--name" "Assign a name to the container",
  Suggest.mk "--net" "Connect a container to a network",
  Suggest.mk "--net-alias" "Add network-scoped alias for the container",
  Suggest.mk "--network" "Connect a container to a network",
  Suggest.mk "--network-alias" "Add network-scoped alias for the container",
  Suggest.mk "--no-healthcheck" "Disable any container-specified HEALTHCHECK",
  Suggest.mk "--oom-kill-disable" "Disable OOM Killer",
  Suggest.mk "--oom-score-adj" "Tune host’s OOM preferences (-1000 to 1000)",
  Suggest.mk "--pid" "PID namespace to use",
  Suggest.mk "--pids-limit" "Tune container pids limit (set -1 for unlimited)",
  Suggest.mk "--platform" "",
  Suggest.mk "--privileged" "Give extended privileges to this container",
  Suggest.mk "--publish" "Publish a container’s port(s) to the host",
  Suggest.mk "--publish-all" "Publish all exposed ports to random ports",
  Suggest.mk "--read-only" "Mount the container’s root filesystem as read only",
  Suggest.mk "--restart" "Restart policy to apply when a container exits",
  Suggest.mk "--rm" "Automatically remove the container when it exits",
  Suggest.mk "--runtime" "Runtime to use for this container",
  Suggest.mk "--security-opt" "Security Options",
  Suggest.mk "--shm-size" "Size of /dev/shm",
  Suggest.mk "--stop-signal" "Signal to stop a container",
  Suggest.mk "--stop-timeout" "",
  Suggest.mk "--storage-opt" "Storage driver options for the container",
  Suggest.mk "--sysctl" "Sysctl options",
  Suggest.mk "--tmpfs" "Mount a tmpfs directory",
  Suggest.mk "--tty" "Allocate a pseudo-TTY",
  Suggest.mk "--ulimit" "Ulimit options",
  Suggest.mk "--user" "Username or UID (format: &lt;name|uid&gt;[:&lt;group|gid&gt;])",
  Suggest.mk "--userns" "User namespace to use",
  Suggest.mk "--uts" "UTS namespace to use",
  Suggest.mk "--volume" "Bind mount a volume",
  Suggest.mk "--volume-driver" "Optional volume driver for the container",
  Suggest.mk "--volumes-from" "Mount volumes from the specified container(s)",
  Suggest.mk "--workdir" "Working directory inside the container"
]

/-- The value of `subCommands` under the key "events". -/
def tableEvents : List Suggest := [
  Suggest.mk "--filter" "Filter output based on conditions provided",
  Suggest.mk "--format" "Format the output using the given Go template",
  Suggest.mk "--since" "Show all events created since timestamp",
  Suggest.mk "--until" "Stream events until this timestamp"
]

/-- The value of `subCommands` under the key "exec". -/
def tableExec : List Suggest := [
  Suggest.mk "--detach" "Detached mode: run command in the background",
  Suggest.mk "--detach-keys" "Override the key sequence for detaching a container",
  Suggest.mk "--env" "",
  Suggest.mk "--interactive" "Keep STDIN open even if not attached",
  Suggest.mk "--privileged" "Give extended privileges to the command",
  Suggest.mk "--tty" "Allocate a pseudo-TTY",
  Suggest.mk "--user" "Username or UID (format: &lt;name|uid&gt;[:&lt;group|gid&gt;])",
  Suggest.mk "--workdir" ""
]

/-- The value of `subCommands` under the key "export". -/
def tableExport : List Suggest := [
  Suggest.mk "--output" "Write to a file, instead of STDOUT"
]

/-- The value of `subCommands` under the key "history". -/
def tableHistory : List Suggest := [
  Suggest.mk "--format" "Pretty-print images using a Go template",
  Suggest.mk "--human" "Print sizes and dates in human readable format",
  Suggest.mk "--no-trunc" "Don’t truncate output",
  Suggest.mk "--quiet" "Only show numeric IDs"
]

/-- The value of `subCommands` under the key "images". -/
def tableImages : List Suggest := [
  Suggest.mk "--all" "Show all images (default hides intermediate images)",
  Suggest.mk "--digests" "Show digests",
  Suggest.mk "--filter" "Filter output based on conditions provided",
  Suggest.mk "--format" "Pretty-print images using a Go template",
  Suggest.mk "--no-trunc" "Don’t truncate output",
  Suggest.mk "--quiet" "Only show numeric IDs"
]

/-- The value of `subCommands` under the key "import". -/
def tableImport : List Suggest := [
  Suggest.mk "--change" "Apply Dockerfile instruction to the created image",
  Suggest.mk "--message" "Set commit message for imported image",
  Suggest.mk "--platform" ""
]

/-- The value of `subCommands` under the key "info". -/
def tableInfo : List Suggest := [
  Suggest.mk "--format" "Format the output using the given Go template"
]

/-- The value of `subCommands` under the key "inspect". -/
def tableInspect : List Suggest := [
  Suggest.mk "--format" "Format the output using the given Go template",
  Suggest.mk "--size" "Display total file sizes if the type is container",
  Suggest.mk "--type" "Return JSON for specified type"
]

/-- The value of `subCommands` under the key "kill". -/
def tableKill : List Suggest := [
  Suggest.mk "--signal" "Signal to send to the container"
]

/-- The value of `subCommands` under the key "load". -/
def tableLoad : List Suggest := [
  Suggest.mk "--input" "Read from tar archive file, instead of STDIN",
  Suggest.mk "--quiet" "Suppress the load output"
]

/-- The value of `subCommands` under the key "login". -/
def tableLogin : List Suggest := [
  Suggest.mk "--password" "Password",
  Suggest.mk "--password-stdin" "Take the password from stdin",
  Suggest.mk "--username" "Username"
]

/-- The value of `subCommands` under the key "logs". -/
def tableLogs : List Suggest := [
  Suggest.mk "--details" "Show extra details provided to logs",
  Suggest.mk "--follow" "Follow log output",
  Suggest.mk "--since" "Show logs since timestamp (e.g. 2013-01-02T13:23:37) or relative (e.g. 42m for 42 minutes)",
  Suggest.mk "--tail" "Number of lines to show from the end of the logs",
  Suggest.mk "--timestamps" "Show timestamps",
  Suggest.mk "--until" ""
]

/-- The value of `subCommands` under the key "ps". -/
def tablePs : List Suggest := [
  Suggest.mk "--all" "Show all containers (default shows just running)",
  Suggest.mk "--filter" "Filter output based on conditions provided",
  Suggest.mk "--format" "Pretty-print containers using a Go template",
  Suggest.mk "--last" "Show n last created containers (includes all states)",
  Suggest.mk "--latest" "Show the latest created container (includes all states)",
  Suggest.mk "--no-trunc" "Don’t truncate output",
  Suggest.mk "--quiet" "Only display numeric IDs",
  Suggest.mk "--size" "Display total file sizes"
]

/-- The value of `subCommands` under the key "pull". -/
def tablePull : List Suggest := [
  Suggest.mk "--all-tags" "Download all tagged images in the repository",
  Suggest.mk "--disable-content-trust" "Skip image verification",
  Suggest.mk "--platform" "",
  Suggest.mk "--quiet" "Suppress verbose output"
]

/-- The value of `subCommands` under the key "push". -/
def tablePush : List Suggest := [
  Suggest.mk "--disable-content-trust" "Skip image signing"
]

/-- The value of `subCommands` under the key "restart". -/
def tableRestart : List Suggest := [
  Suggest.mk "--time" "Seconds to wait for stop before killing the container"
]

/-- The value of `subCommands` under the key "rm". -/
def tableRm : List Suggest := [
  Suggest.mk "--force" "Force the removal of a running container (uses SIGKILL)",
  Suggest.mk "--link" "Remove the specified link",
  Suggest.mk "--volumes" "Remove the volumes associated with the container"
]

/-- The value of `subCommands` under the key "rmi". -/
def tableRmi : List Suggest := [
  Suggest.mk "--force" "Force removal of the image",
  Suggest.mk "--no-prune" "Do not delete untagged parents"
]

/-- The value of `subCommands` under the key "run". -/
def tableRun : List Suggest := [
  Suggest.mk "--add-host" "Add a custom host-to-IP mapping (host:ip)",
  Suggest.mk "--attach" "Attach to STDIN, STDOUT or STDERR",
  Suggest.mk "--blkio-weight" "Block IO (relative weight), between 10 and 1000, or 0 to disable (default 0)",
  Suggest.mk "--blkio-weight-device" "Block IO weight (relative device weight)",
  Suggest.mk "--cap-add" "Add Linux capabilities",
  Suggest.mk "--cap-drop" "Drop Linux capabilities",
  Suggest.mk "--cgroup-parent" "Optional parent cgroup for the container",
  Suggest.mk "--cidfile" "Write the container ID to the file",
  Suggest.mk "--cpu-count" "CPU count (Windows only)",
  Suggest.mk "--cpu-percent" "CPU percent (Windows only)",
  Suggest.mk "--cpu-period" "Limit CPU CFS (Completely Fair Scheduler) period",
  Suggest.mk "--cpu-quota" "Limit CPU CFS (Completely Fair Scheduler) quota",
  Suggest.mk "--cpu-rt-period" "",
  Suggest.mk "--cpu-rt-runtime" "",
  Suggest.mk "--cpu-shares" "CPU shares (relative weight)",
  Suggest.mk "--cpus" "",
  Suggest.mk "--cpuset-cpus" "CPUs in which to allow execution (0-3, 0,1)",
  Suggest.mk "--cpuset-mems" "MEMs in which to allow execution (0-3, 0,1)",
  Suggest.mk "--detach" "Run container in background and print container ID",
  Suggest.mk "--detach-keys" "Override the key sequence for detaching a container",
  Suggest.mk "--device" "Add a host device to the container",
  Suggest.mk "--device-cgroup-rule" "Add a rule to the cgroup allowed devices list",
  Suggest.mk "--device-read-bps" "Limit read rate (bytes per second) from a device",
  Suggest.mk "--device-read-iops" "Limit read rate (IO per second) from a device",
  Suggest.mk "--device-write-bps" "Limit write rate (bytes per second) to a device",
  Suggest.mk "--device-write-iops" "Limit write rate (IO per second) to a device",
  Suggest.mk "--disable-content-trust" "Skip image verification",
  Suggest.mk "--dns" "Set custom DNS servers",
  Suggest.mk "--dns-opt" "Set DNS options",
  Suggest.mk "--dns-option" "Set DNS options",
  Suggest.mk "--dns-search" "Set custom DNS search domains",
  Suggest.mk "--domainname" "Container NIS domain name",
  Suggest.mk "--entrypoint" "Overwrite the default ENTRYPOINT of the image",
  Suggest.mk "--env" "Set environment variables",
  Suggest.mk "--env-file" "Read in a file of environment variables",
  Suggest.mk "--expose" "Expose a port or a range of ports",
  Suggest.mk "--gpus" "",
  Suggest.mk "--group-add" "Add additional groups to join",
  Suggest.mk "--health-cmd" "Command to run to check health",
  Suggest.mk "--health-interval" "Time between running the check (ms|s|m|h) (default 0s)",
  Suggest.mk "--health-retries" "Consecutive failures needed to report unhealthy",
  Suggest.mk "--health-start-period" "",
  Suggest.mk "--health-timeout" "Maximum time to allow one check to run (ms|s|m|h) (default 0s)",
  Suggest.mk "--help" "Print usage",
  Suggest.mk "--hostname" "Container host name",
  Suggest.mk "--init" "",
  Suggest.mk "--interactive" "Keep STDIN open even if not attached",
  Suggest.mk "--io-maxbandwidth" "Maximum IO bandwidth limit for the system drive (Windows only)",
  Suggest.mk "--io-maxiops" "Maximum IOps limit for the system drive (Windows only)",
  Suggest.mk "--ip" "IPv4 address (e.g., 172.30.100.104)",
  Suggest.mk "--ip6" "IPv6 address (e.g., 2001:db8::33)",
  Suggest.mk "--ipc" "IPC mode to use",
  Suggest.mk "--isolation" "Container isolation technology",
  Suggest.mk "--kernel-memory" "Kernel memory limit",
  Suggest.mk "--label" "Set meta data on a container",
  Suggest.mk "--label-file" "Read in a line delimited file of labels",
  Suggest.mk "--link" "Add link to another container",
  Suggest.mk "--link-local-ip" "Container IPv4/IPv6 link-local addresses",
  Suggest.mk "--log-driver" "Logging driver for the container",
  Suggest.mk "--log-opt" "Log driver options",
  Suggest.mk "--mac-address" "Container MAC address (e.g., 92:d0:c6:0a:29:33)",
  Suggest.mk "--memory" "Memory limit",
  Suggest.mk "--memory-reservation" "Memory soft limit",
  Suggest.mk "--memory-swap" "Swap limit equal to memory plus swap: ‘-1’ to enable unlimited swap",
  Suggest.mk "--memory-swappiness" "Tune container memory swappiness (0 to 100)",
  Suggest.mk "--mount" "Attach a filesystem mount to the container",
  Suggest.mk "--name" "Assign a name to the container",
  Suggest.mk "--net" "Connect a container to a network",
  Suggest.mk "--net-alias" "Add network-scoped alias for the container",
  Suggest.mk "--network" "Connect a container to a network",
  Suggest.mk "--network-alias" "Add network-scoped alias for the container",
  Suggest.mk "--no-healthcheck" "Disable any container-specified HEALTHCHECK",
  Suggest.mk "--oom-kill-disable" "Disable OOM Killer",
  Suggest.mk "--oom-score-adj" "Tune host’s OOM preferences (-1000 to 1000)",
  Suggest.mk "--pid" "PID namespace to use",
  Suggest.mk "--pids-limit" "Tune container pids limit (set -1 for unlimited)",
  Suggest.mk "--platform" "",
  Suggest.mk "--privileged" "Give extended privileges to this container",
  Suggest.mk "--publish" "Publish a container’s port(s) to the host",
  Suggest.mk "--publish-all" "Publish all exposed ports to random ports",
  Suggest.mk "--read-only" "Mount the container’s root filesystem as read only",
  Suggest.mk "--restart" "Restart policy to apply when a container exits",
  Suggest.mk "--rm" "Automatically remove the container when it exits",
  Suggest.mk "--runtime" "Runtime to use for this container",
  Suggest.mk "--security-opt" "Security Options",
  Suggest.mk "--shm-size" "Size of /dev/shm",
  Suggest.mk "--sig-proxy" "Proxy received signals to the process",
  Suggest.mk "--stop-signal" "Signal to stop a container",
  Suggest.mk "--stop-timeout" "",
  Suggest.mk "--storage-opt" "Storage driver options for the container",
  Suggest.mk "--sysctl" "Sysctl options",
  Suggest.mk "--tmpfs" "Mount a tmpfs directory",
  Suggest.mk "--tty" "Allocate a pseudo-TTY",
  Suggest.mk "--ulimit" "Ulimit options",
  Suggest.mk "--user" "Username or UID (format: &lt;name|uid&gt;[:&lt;group|gid&gt;])",
  Suggest.mk "--userns" "User namespace to use",
  Suggest.mk "--uts" "UTS namespace to use",
  Suggest.mk "--volume" "Bind mount a volume",
  Suggest.mk "--volume-driver" "Optional volume driver for the container",
  Suggest.mk "--volumes-from" "Mount volumes from the specified container(s)",
  Suggest.mk "--workdir" "Working directory inside the container"
]

/-- The value of `subCommands` under the key "save". -/
def tableSave : List Suggest := [
  Suggest.mk "--output" "Write to a file, instead of STDOUT"
]

/-- The value of `subCommands` under the key "search". -/
def tableSearch : List Suggest := [
  Suggest.mk "--automated" "",
  Suggest.mk "--filter" "Filter output based on conditions provided",
  Suggest.mk "--format" "Pretty-print search using a Go template",
  Suggest.mk "--limit" "Max number of search results",
  Suggest.mk "--no-trunc" "Don’t truncate output",
  Suggest.mk "--stars" ""
]

/-- The value of `subCommands` under the key "stack". -/
def tableStack : List Suggest := [
  Suggest.mk "--kubeconfig" "",
  Suggest.mk "--orchestrator" "Orchestrator to use (swarm|kubernetes|all)"
]

/-- The value of `subCommands` under the key "start". -/
def tableStart : List Suggest := [
  Suggest.mk "--attach" "Attach STDOUT/STDERR and forward signals",
  Suggest.mk "--checkpoint" "",
  Suggest.mk "--checkpoint-dir" "",
  Suggest.mk "--detach-keys" "Override the key sequence for detaching a container",
  Suggest.mk "--interactive" "Attach container’s STDIN"
]

/-- The value of `subCommands` under the key "stats". -/
def tableStats : List Suggest := [
  Suggest.mk "--all" "Show all containers (default shows just running)",
  Suggest.mk "--format" "Pretty-print images using a Go template",
  Suggest.mk "--no-stream" "Disable streaming stats and only pull the first result",
  Suggest.mk "--no-trunc" "Do not truncate output"
]

/-- The value of `subCommands` under the key "stop". -/
def tableStop : List Suggest := [
  Suggest.mk "--time" "Seconds to wait for stop before killing it"
]

/-- The value of `subCommands` under the key "update". -/
def tableUpdate : List Suggest := [
  Suggest.mk "--blkio-weight" "Block IO (relative weight), between 10 and 1000, or 0 to disable (default 0)",
  Suggest.mk "--cpu-period" "Limit CPU CFS (Completely Fair Scheduler) period",
  Suggest.mk "--cpu-quota" "Limit CPU CFS (Completely Fair Scheduler) quota",
  Suggest.mk "--cpu-rt-period" "",
  Suggest.mk "--cpu-rt-runtime" "",
  Suggest.mk "--cpu-shares" "CPU shares (relative weight)",
  Suggest.mk "--cpus" "",
  Suggest.mk "--cpuset-cpus" "CPUs in which to allow execution (0-3, 0,1)",
  Suggest.mk "--cpuset-mems" "MEMs in which to allow execution (0-3, 0,1)",
  Suggest.mk "--kernel-memory" "Kernel memory limit",
  Suggest.mk "--memory" "Memory limit",
  Suggest.mk "--memory-reservation" "Memory soft limit",
  Suggest.mk "--memory-swap" "Swap limit equal to memory plus swap: ‘-1’ to enable unlimited swap",
  Suggest.mk "--pids-limit" "",
  Suggest.mk "--restart" "Restart policy to apply when a container exits"
]

/-- The value of `subCommands` under the key "version". -/
def tableVersion : List Suggest := [
  Suggest.mk "--format" "Format the output using the given Go template",
  Suggest.mk "--kubeconfig" ""
]

/-- The value of `subCommands` under the key "service". -/
def tableService : List Suggest := [
  Suggest.mk "create" "Create a new service",
  Suggest.mk "inspect" "Display detailed information on one or more services",
  Suggest.mk "logs" "Fetch the logs of a service or task",
  Suggest.mk "ls" "List services",
  Suggest.mk "ps" "List the tasks of one or more services",
  Suggest.mk "rm" "Remove one or more services",
  Suggest.mk "rollback" "Revert changes to a service’s configuration",
  Suggest.mk "scale" "Scale one or multiple replicated services",
  Suggest.mk "update" "Update a service"
]

/-- The value of `subCommands` under the key "service create". -/
def tableServiceCreate : List Suggest := [
  Suggest.mk "--config" "Specify configurations to expose to the service",
  Suggest.mk "--constraint" "Placement constraints",
  Suggest.mk "--container-label" "Container labels",
  Suggest.mk "--credential-spec" "Credential spec for managed service account (Windows only)",
  Suggest.mk "--detach" "Exit immediately instead of waiting for the service to converge",
  Suggest.mk "--dns" "Set custom DNS servers",
  Suggest.mk "--dns-option" "Set DNS options",
  Suggest.mk "--dns-search" "Set custom DNS search domains",
  Suggest.mk "--endpoint-mode" "Endpoint mode (vip or dnsrr)",
  Suggest.mk "--entrypoint" "Overwrite the default ENTRYPOINT of the image",
  Suggest.mk "--env" "Set environment variables",
  Suggest.mk "--env-file" "Read in a file of environment variables",
  Suggest.mk "--generic-resource" "User defined resources",
  Suggest.mk "--group" "Set one or more supplementary user groups for the container",
  Suggest.mk "--health-cmd" "Command to run to check health",
  Suggest.mk "--health-interval" "Time between running the check (ms|s|m|h)",
  Suggest.mk "--health-retries" "Consecutive failures needed to report unhealthy",
  Suggest.mk "--health-start-period" "Start period for the container to initialize before counting retries towards unstable (ms|s|m|h)",
  Suggest.mk "--health-timeout" "Maximum time to allow one check to run (ms|s|m|h)",
  Suggest.mk "--host" "Set one or more custom host-to-IP mappings (host:ip)",
  Suggest.mk "--hostname" "Container hostname",
  Suggest.mk "--init" "Use an init inside each service container to forward signals and reap processes",
  Suggest.mk "--isolation" "Service container isolation mode",
  Suggest.mk "--label" "Service labels",
  Suggest.mk "--limit-cpu" "Limit CPUs",
  Suggest.mk "--limit-memory" "Limit Memory",
  Suggest.mk "--log-driver" "Logging driver for service",
  Suggest.mk "--log-opt" "Logging driver options",
  Suggest.mk "--mode" "Service mode (replicated or global)",
  Suggest.mk "--mount" "Attach a filesystem mount to the service",
  Suggest.mk "--name" "Service name",
  Suggest.mk "--network" "Network attachments",
  Suggest.mk "--no-healthcheck" "Disable any container-specified HEALTHCHECK",
  Suggest.mk "--no-resolve-image" "Do not query the registry to resolve image digest and supported platforms",
  Suggest.mk "--placement-pref" "Add a placement preference",
  Suggest.mk "--publish" "Publish a port as a node port",
  Suggest.mk "--quiet" "Suppress progress output",
  Suggest.mk "--read-only" "Mount the container’s root filesystem as read only",
  Suggest.mk "--replicas" "Number of tasks",
  Suggest.mk "--replicas-max-per-node" "Maximum number of tasks per node (default 0 = unlimited)",
  Suggest.mk "--reserve-cpu" "Reserve CPUs",
  Suggest.mk "--reserve-memory" "Reserve Memory",
  Suggest.mk "--restart-condition" "Restart when condition is met (“none”|”on-failure”|”any”) (default “any”)",
  Suggest.mk "--restart-delay" "Delay between restart attempts (ns|us|ms|s|m|h) (default 5s)",
  Suggest.mk "--restart-max-attempts" "Maximum number of restarts before giving up",
  Suggest.mk "--restart-window" "Window used to evaluate the restart policy (ns|us|ms|s|m|h)",
  Suggest.mk "--rollback-delay" "Delay between task rollbacks (ns|us|ms|s|m|h) (default 0s)",
  Suggest.mk "--rollback-failure-action" "Action on rollback failure (“pause”|”continue”) (default “pause”)",
  Suggest.mk "--rollback-max-failure-ratio" "Failure rate to tolerate during a rollback (default 0)",
  Suggest.mk "--rollback-monitor" "Duration after each task rollback to monitor for failure (ns|us|ms|s|m|h) (default 5s)",
  Suggest.mk "--rollback-order" "Rollback order (“start-first”|”stop-first”) (default “stop-first”)",
  Suggest.mk "--rollback-parallelism" "Maximum number of tasks rolled back simultaneously (0 to roll back all at once)",
  Suggest.mk "--secret" "Specify secrets to expose to the service",
  Suggest.mk "--stop-grace-period" "Time to wait before force killing a container (ns|us|ms|s|m|h) (default 10s)",
  Suggest.mk "--stop-signal" "Signal to stop the container",
  Suggest.mk "--sysctl" "Sysctl options",
  Suggest.mk "--tty" "Allocate a pseudo-TTY",
  Suggest.mk "--update-delay" "Delay between updates (ns|us|ms|s|m|h) (default 0s)",
  Suggest.mk "--update-failure-action" "Action on update failure (“pause”|”continue”|”rollback”) (default “pause”)",
  Suggest.mk "--update-max-failure-ratio" "Failure rate to tolerate during an update (default 0)",
  Suggest.mk "--update-monitor" "Duration after each task update to monitor for failure (ns|us|ms|s|m|h) (default 5s)",
  Suggest.mk "--update-order" "Update order (“start-first”|”stop-first”) (default “stop-first”)",
  Suggest.mk "--update-parallelism" "Maximum number of tasks updated simultaneously (0 to update all at once)",
  Suggest.mk "--user" "Username or UID (format: <name|uid>[:<group|gid>])",
  Suggest.mk "--with-registry-auth" "Send registry authentication details to swarm agents",
  Suggest.mk "--workdir" "Working directory inside the container"
]

/-- The value of `subCommands` under the key "service inspect". -/
def tableServiceInspect : List Suggest := [
  Suggest.mk "--format" "Format the output using the given Go template",
  Suggest.mk "--pretty" "Print the information in a human friendly format"
]

/-- The value of `subCommands` under the key "service logs". -/
def tableServiceLogs : List Suggest := [
  Suggest.mk "--details" "Show extra details provided to logs",
  Suggest.mk "--follow" "Follow log output",
  Suggest.mk "--no-resolve" "Do not map IDs to Names in output",
  Suggest.mk "--no-task-ids" "Do not include task IDs in output",
  Suggest.mk "--no-trunc" "Do not truncate output",
  Suggest.mk "--raw" "Do not neatly format logs",
  Suggest.mk "--since" "Show logs since timestamp (e.g. 2013-01-02T13:23:37) or relative (e.g. 42m for 42 minutes)",
  Suggest.mk "--tail" "Number of lines to show from the end of the logs",
  Suggest.mk "--timestamps" "Show timestamps"
]

/-- The value of `subCommands` under the key "service ls". -/
def tableServiceLs : List Suggest := [
  Suggest.mk "--filter" "Filter output based on conditions provided",
  Suggest.mk "--format" "Pretty-print services using a Go template",
  Suggest.mk "--quiet" "Only display IDs"
]

/-- The value of `subCommands` under the key "service ps". -/
def tableServicePs : List Suggest := [
  Suggest.mk "--filter" "Filter output based on conditions provided",
  Suggest.mk "--format" "Pretty-print tasks using a Go template",
  Suggest.mk "--no-resolve" "Do not map IDs to Names",
  Suggest.mk "--no-trunc" "Do not truncate output",
  Suggest.mk "--quiet" "Only display task IDs"
]

/-- The value of `subCommands` under the key "service rollback". -/
def tableServiceRollback : List Suggest := [
  Suggest.mk "--detach" "Exit immediately instead of waiting for the service to converge",
  Suggest.mk "--quiet" "Suppress progress output"
]

/-- The value of `subCommands` under the key "service scale". -/
def tableServiceScale : List Suggest := [
  Suggest.mk "--detach" "Exit immediately instead of waiting for the service to converge"
]

/-- The value of `subCommands` under the key "service update". -/
def tableServiceUpdate : List Suggest := [
  Suggest.mk "--args" "Service command args",
  Suggest.mk "--config-add" "Add or update a config file on a service",
  Suggest.mk "--config-rm" "Remove a configuration file",
  Suggest.mk "--constraint-add" "Add or update a placement constraint",
  Suggest.mk "--constraint-rm" "Remove a constraint",
  Suggest.mk "--container-label-add" "Add or update a container label",
  Suggest.mk "--container-label-rm" "Remove a container label by its key",
  Suggest.mk "--credential-spec" "Credential spec for managed service account (Windows only)",
  Suggest.mk "--detach" "Exit immediately instead of waiting for the service to converge",
  Suggest.mk "--dns-add" "Add or update a custom DNS server",
  Suggest.mk "--dns-option-add" "Add or update a DNS option",
  Suggest.mk "--dns-option-rm" "Remove a DNS option",
  Suggest.mk "--dns-rm" "Remove a custom DNS server",
  Suggest.mk "--dns-search-add" "Add or update a custom DNS search domain",
  Suggest.mk "--dns-search-rm" "Remove a DNS search domain",
  Suggest.mk "--endpoint-mode" "Endpoint mode (vip or dnsrr)",
  Suggest.mk "--entrypoint" "Overwrite the default ENTRYPOINT of the image",
  Suggest.mk "--env-add" "Add or update an environment variable",
  Suggest.mk "--env-rm" "Remove an environment variable",
  Suggest.mk "--force" "Force update even if no changes require it",
  Suggest.mk "--generic-resource-add" "Add a Generic resource",
  Suggest.mk "--generic-resource-rm" "Remove a Generic resource",
  Suggest.mk "--group-add" "Add an additional supplementary user group to the container",
  Suggest.mk "--group-rm" "Remove a previously added supplementary user group from the container",
  Suggest.mk "--health-cmd" "Command to run to check health",
  Suggest.mk "--health-interval" "Time between running the check (ms|s|m|h)",
  Suggest.mk "--health-retries" "Consecutive failures needed to report unhealthy",
  Suggest.mk "--health-start-period" "Start period for the container to initialize before counting retries towards unstable (ms|s|m|h)",
  Suggest.mk "--health-timeout" "Maximum time to allow one check to run (ms|s|m|h)",
  Suggest.mk "--host-add" "Add a custom host-to-IP mapping (host:ip)",
  Suggest.mk "--host-rm" "Remove a custom host-to-IP mapping (host:ip)",
  Suggest.mk "--hostname" "Container hostname",
  Suggest.mk "--image" "Service image tag",
  Suggest.mk "--init" "Use an init inside each service container to forward signals and reap processes",
  Suggest.mk "--isolation" "Service container isolation mode",
  Suggest.mk "--label-add" "Add or update a service label",
  Suggest.mk "--label-rm" "Remove a label by its key",
  Suggest.mk "--limit-cpu" "Limit CPUs",
  Suggest.mk "--limit-memory" "Limit Memory",
  Suggest.mk "--log-driver" "Logging driver for service",
  Suggest.mk "--log-opt" "Logging driver options",
  Suggest.mk "--mount-add" "Add or update a mount on a service",
  Suggest.mk "--mount-rm" "Remove a mount by its target path",
  Suggest.mk "--network-add" "Add a network",
  Suggest.mk "--network-rm" "Remove a network",
  Suggest.mk "--no-healthcheck" "Disable any container-specified HEALTHCHECK",
  Suggest.mk "--no-resolve-image" "Do not query the registry to resolve image digest and supported platforms",
  Suggest.mk "--placement-pref-add" "Add a placement preference",
  Suggest.mk "--placement-pref-rm" "Remove a placement preference",
  Suggest.mk "--publish-add" "Add or update a published port",
  Suggest.mk "--publish-rm" "Remove a published port by its target port",
  Suggest.mk "--quiet" "Suppress progress output",
  Suggest.mk "--read-only" "Mount the container’s root filesystem as read only",
  Suggest.mk "--replicas" "Number of tasks",
  Suggest.mk "--replicas-max-per-node" "Maximum number of tasks per node (default 0 = unlimited)",
  Suggest.mk "--reserve-cpu" "Reserve CPUs",
  Suggest.mk "--reserve-memory" "Reserve Memory",
  Suggest.mk "--restart-condition" "Restart when condition is met (“none”|”on-failure”|”any”)",
  Suggest.mk "--restart-delay" "Delay between restart attempts (ns|us|ms|s|m|h)",
  Suggest.mk "--restart-max-attempts" "Maximum number of restarts before giving up",
  Suggest.mk "--restart-window" "Window used to evaluate the restart policy (ns|us|ms|s|m|h)",
  Suggest.mk "--rollback" "Rollback to previous specification",
  Suggest.mk "--rollback-delay" "Delay between task rollbacks (ns|us|ms|s|m|h)",
  Suggest.mk "--rollback-failure-action" "Action on rollback failure (“pause”|”continue”)",
  Suggest.mk "--rollback-max-failure-ratio" "Failure rate to tolerate during a rollback",
  Suggest.mk "--rollback-monitor" "Duration after each task rollback to monitor for failure (ns|us|ms|s|m|h)",
  Suggest.mk "--rollback-order" "Rollback order (“start-first”|”stop-first”)",
  Suggest.mk "--rollback-parallelism" "Maximum number of tasks rolled back simultaneously (0 to roll back all at once)",
  Suggest.mk "--secret-add" "Add or update a secret on a service",
  Suggest.mk "--secret-rm" "Remove a secret",
  Suggest.mk "--stop-grace-period" "Time to wait before force killing a container (ns|us|ms|s|m|h)",
  Suggest.mk "--stop-signal" "Signal to stop the container",
  Suggest.mk "--sysctl-add" "Add or update a Sysctl option",
  Suggest.mk "--sysctl-rm" "Remove a Sysctl option",
  Suggest.mk "--tty" "Allocate a pseudo-TTY",
  Suggest.mk "--update-delay" "Delay between updates (ns|us|ms|s|m|h)",
  Suggest.mk "--update-failure-action" "Action on update failure (“pause”|”continue”|”rollback”)",
  Suggest.mk "--update-max-failure-ratio" "Failure rate to tolerate during an update",
  Suggest.mk "--update-monitor" "Duration after each task update to monitor for failure (ns|us|ms|s|m|h)",
  Suggest.mk "--update-order" "Update order (“start-first”|”stop-first”)",
  Suggest.mk "--update-parallelism" "Maximum number of tasks updated simultaneously (0 to update all at once)",
  Suggest.mk "--user" "Username or UID (format: <name|uid>[:<group|gid>])",
  Suggest.mk "--with-registry-auth" "Send registry authentication details to swarm agents",
  Suggest.mk "--workdir" "Working directory inside the container"
]

/-- The registry `subCommands`: a Go map literal, kept as the list of its entries in source
order (a map literal has pairwise distinct keys). -/
def subCommands : List (String × List Suggest) := [
  ("attach", tableAttach),
  ("build", tableBuild),
  ("commit", tableCommit),
  ("cp", tableCp),
  ("create", tableCreate),
  ("events", tableEvents),
  ("exec", tableExec),
  ("export", tableExport),
  ("history", tableHistory),
  ("images", tableImages),
  ("import", tableImport),
  ("info", tableInfo),
  ("inspect", tableInspect),
  ("kill", tableKill),
  ("load", tableLoad),
  ("login", tableLogin),
  ("logs", tableLogs),
  ("ps", tablePs),
  ("pull", tablePull),
  ("push", tablePush),
  ("restart", tableRestart),
  ("rm", tableRm),
  ("rmi", tableRmi),
  ("run", tableRun),
  ("save", tableSave),
  ("search", tableSearch),
  ("stack", tableStack),
  ("start", tableStart),
  ("stats", tableStats),
  ("stop", tableStop),
  ("update", tableUpdate),
  ("version", tableVersion),
  ("service", tableService),
  ("service create", tableServiceCreate),
  ("service inspect", tableServiceInspect),
  ("service logs", tableServiceLogs),
  ("service ls", tableServiceLs),
  ("service ps", tableServicePs),
  ("service rollback", tableServiceRollback),
  ("service scale", tableServiceScale),
  ("service update", tableServiceUpdate)
]

/-- The index expression `subCommands[command]` with its presence flag. -/
def subCommandsLookup (command : String) : Option (List Suggest) :=
  subCommands.lookup command

/-! ## Catalog search, cache and live resources -/

/-- The struct `http.Client`, field `Timeout`. -/
structure Client where
  Timeout : Duration

/-- The function `imageFromHubAPI`. -/
def imageFromHubAPI (env : Env) (count : Nat) (w : World) : List SearchResult × World :=
  let url : URL := ⟨"https", "registry.hub.docker.com", "/v2/repositories/library",
    "page=1&page_size=" ++ Itoa count⟩
  let client : Client := ⟨2 * Second⟩
  let apiURL := url.String
  match NewRequest "GET" apiURL with
  | none => ([], w)
  | some req =>
    let req := req.HeaderAdd "Content-Type" "application/json"
    let w1 := w.record env (Call.httpDo req client.Timeout)
    match env.httpDo req with
    | none => ([], w1)
    | some body => ((env.jsonDecode body).1.Items, w1)

/-- The function `imageFromContext`. -/
def imageFromContext (env : Env) (imageName : String) (count : Nat) (w : World) :
    List SearchResult × World :=
  let options : ImageSearchOptions := ⟨count⟩
  let w1 := w.record env (Call.ImageSearch imageName options (some (2 * Second)))
  match env.ImageSearch imageName options with
  | (_, some _) => ([], w1)
  | (ctxResponse, none) => (ctxResponse, w1)

/-- The function `imageFetchCompleter`; its parameter `count` is not used by the body. -/
def imageFetchCompleter (env : Env) (imageName : String) (count : Nat) (w : World) :
    List Suggest × World :=
  let (searchResult, w1) :=
    if imageName = "" then imageFromHubAPI env 10 w else imageFromContext env imageName 10 w
  let suggestions := searchResult.foldl
    (fun suggestions s =>
      let description := if s.IsOfficial then "Official" else "Not Official"
      suggestions ++ [⟨s.Name, "(" ++ description ++ ") " ++ s.Description⟩])
    []
  (suggestions, w1)

/-- The variable `memoryCache`. -/
def memoryCache : Cache := New (5 * Minute) (10 * Minute)

/-- The key `getFromCache` computes for a word. -/
def cacheKeyOf (word : String) : String :=
  if word ≠ "" then "completer:" ++ word else "all"

/-- The function `getFromCache`. -/
def getFromCache (env : Env) (word : String) (w : World) : List Suggest × World :=
  let cacheKey := cacheKeyOf word
  match memoryCache.Get w.items w.now cacheKey with
  | some completer => (completer, w)
  | none =>
    let (completer, w1) := imageFetchCompleter env word 10 w
    (completer,
      { w1 with items := memoryCache.Set w1.items w1.now cacheKey completer DefaultExpiration })

/-- The function `containerListCompleter`. -/
def containerListCompleter (env : Env) (all : Bool) (w : World) : List Suggest × World :=
  let options : ContainerListOptions := ⟨all⟩
  let w1 := w.record env (Call.ContainerList options none)
  let cList := (env.ContainerList options).1
  (cList.foldl (fun suggestions container => suggestions ++ [⟨container.ID, container.Image⟩]) [],
    w1)

/-! ## The resolver -/

/-- What `completer` reads of a `prompt.Document`: the field `Text` and the result of
`GetWordBeforeCursor`. -/
structure Document where
  Text : String
  WordBeforeCursor : String

/-- The local slice `suggestions` of `completer`: the root-command list. -/
def suggestions : List Suggest := [
  Suggest.mk "attach" "Attach local standard input, output, and error streams to a running container",
  Suggest.mk "build" "Build an image from a Dockerfile",
  Suggest.mk "builder" "Manage builds",
  Suggest.mk "checkpoint" "Manage checkpoints",
  Suggest.mk "commit" "Create a new image from a container’s changes",
  Suggest.mk "config" "Manage Docker configs",
  Suggest.mk "container" "Manage containers",
  Suggest.mk "context" "Manage contexts",
  Suggest.mk "cp" "Copy files/folders between a container and the local filesystem",
  Suggest.mk "create" "Create a new container",
  Suggest.mk "diff" "Inspect changes to files or directories on a container’s filesystem",
  Suggest.mk "events" "Get real time events from the server",
  Suggest.mk "exec" "Run a command in a running container",
  Suggest.mk "export" "Export a container’s filesystem as a tar archive",
  Suggest.mk "history" "Show the history of an image",
  Suggest.mk "image" "Manage images",
  Suggest.mk "images" "List images",
  Suggest.mk "import" "Import the contents from a tarball to create a filesystem image",
  Suggest.mk "info" "Display system-wide information",
  Suggest.mk "inspect" "Return low-level information on Docker objects",
  Suggest.mk "kill" "Kill one or more running containers",
  Suggest.mk "load" "Load an image from a tar archive or STDIN",
  Suggest.mk "login" "Log in to a Docker registry",
  Suggest.mk "logout" "Log out from a Docker registry",
  Suggest.mk "logs" "Fetch the logs of a container",
  Suggest.mk "manifest" "Manage Docker image manifests and manifest lists",
  Suggest.mk "network" "Manage networks",
  Suggest.mk "node" "Manage Swarm nodes",
  Suggest.mk "pause" "Pause all processes within one or more containers",
  Suggest.mk "plugin" "Manage plugins",
  Suggest.mk "port" "List port mappings or a specific mapping for the container",
  Suggest.mk "ps" "List containers",
  Suggest.mk "pull" "Pull an image or a repository from a registry",
  Suggest.mk "push" "Push an image or a repository to a registry",
  Suggest.mk "rename" "Rename a container",
  Suggest.mk "restart" "Restart one or more containers",
  Suggest.mk "rm" "Remove one or more containers",
  Suggest.mk "rmi" "Remove one or more images",
  Suggest.mk "run" "Run a command in a new container",
  Suggest.mk "save" "Save one or more images to a tar archive (streamed to STDOUT by default)",
  Suggest.mk "search" "Search the Docker Hub for images",
  Suggest.mk "secret" "Manage Docker secrets",
  Suggest.mk "service" "Manage services",
  Suggest.mk "stack" "Manage Docker stacks",
  Suggest.mk "start" "Start one or more stopped containers",
  Suggest.mk "stats" "Display a live stream of container(s) resource usage statistics",
  Suggest.mk "stop" "Stop one or more running containers",
  Suggest.mk "swarm" "Manage Swarm",
  Suggest.mk "system" "Manage Docker",
  Suggest.mk "tag" "Create a tag TARGET_IMAGE that refers to SOURCE_IMAGE",
  Suggest.mk "top" "Display the running processes of a container",
  Suggest.mk "trust" "Manage trust on Docker images",
  Suggest.mk "unpause" "Unpause all processes within one or more containers",
  Suggest.mk "update" "Update configuration of one or more containers",
  Suggest.mk "version" "Show the Docker version information",
  Suggest.mk "volume" "Manage volumes",
  Suggest.mk "wait" "Block until one or more containers stop, then print their exit codes",
  Suggest.mk "exit" "Exit command prompt"
]

/-- The function `completer`. -/
def completer (env : Env) (d : Document) (w : World) : List Suggest × World :=
  let word := d.WordBeforeCursor
  let fallback := (FilterHasPrefix env.caseTable suggestions word true, w)
  match getRegexGroups d.Text with
  | some group =>
    let command := group.get "command"
    if command = "exec" ∨ command = "stop" ∨ command = "port" then
      containerListCompleter env false w
    else if command = "start" then
      containerListCompleter env true w
    else if command = "pull" then
      if word ≠ command then getFromCache env word w else getFromCache env "" w
    else
      match subCommandsLookup command with
      | some val => (FilterHasPrefix env.caseTable val word true, w)
      | none => fallback
  | none => fallback

/-! ## Notions used to state the properties -/

/-- The command extracted from a line: the entry `group["command"]` of a non-nil result of
`getRegexGroups`, as `completer` reads it. -/
def commandOf (text : String) : Option String :=
  (getRegexGroups text).map (fun group => group.get "command")

/-- Two runes agree when case is ignored. Two ASCII runes agree when they are the same once
both are written in lower case, so that a letter agrees with itself in either case and with
nothing else. When a rune beyond ASCII is involved, they agree when their upper-case forms
are the same, the form of a rune beyond ASCII being the one of the Unicode table. -/
def eqIgnoringCase (caseTable : Char → Char) (a b : Char) : Bool :=
  if a.toNat < 128 ∧ b.toNat < 128 then a.toLower = b.toLower
  else
    (if a.toNat < 128 then a.toUpper else caseTable a) =
      (if b.toNat < 128 then b.toUpper else caseTable b)

/-- The text begins, ignoring case, with the word: the text has at least as many characters as
the word, and its leading characters agree one by one with those of the word when case is
ignored. -/
def beginsWithIgnoringCase (caseTable : Char → Char) (text word : String) : Bool :=
  decide (word.data.length ≤ text.data.length) &&
    (List.zip text.data word.data).all (fun p => eqIgnoringCase caseTable p.1 p.2)

/-- The external call by which `imageFetchCompleter` searches the catalog for a term: the Hub
listing for the empty term, the search of the runtime otherwise. -/
def catalogSearchCall (term : String) : Call :=
  if term = "" then
    Call.httpDo
      ⟨"GET", "https://registry.hub.docker.com/v2/repositories/library?page=1&page_size=10",
        [("Content-Type", "application/json")]⟩
      (2 * Second)
  else Call.ImageSearch term ⟨10⟩ (some (2 * Second))

/-- What can happen to the world between two lookups: time passes, the janitor of the cache
fires, or the line editor asks for a completion. -/
inductive Event where
  | wait (d : Nat)
  | janitor
  | resolve (env : Env) (d : Document)

/-- The effect of one event. -/
def Event.apply : Event → World → World
  | Event.wait d, w => { w with now := w.now + d }
  | Event.janitor, w => { w with items := memoryCache.DeleteExpired w.items w.now }
  | Event.resolve env d, w => (completer env d w).2

/-- The effect of a sequence of events, oldest first. -/
def run (es : List Event) (w : World) : World :=
  es.foldl (fun w e => e.apply w) w

/-- The world at program start: the cache is empty and no call has been made. -/
def initWorld : World := ⟨0, fun _ => none, []⟩

/-- A sample environment: two containers, a Hub listing of two images, a runtime search that
answers every term with two images, and calls that take one second. -/
def sampleEnv : Env where
  caseTable := id
  httpDo := fun _ => some "body"
  jsonDecode := fun _ =>
    (⟨none, none, none, none, none,
      [⟨0, true, "alpine", false, "A minimal image"⟩, ⟨0, true, "busybox", false, "Busybox"⟩]⟩,
      none)
  ImageSearch := fun _ _ =>
    ([⟨9, true, "ubuntu", false, "Ubuntu base image"⟩,
      ⟨1, false, "acme/tools", true, "Build tools"⟩], none)
  ContainerList := fun _ => ([⟨"4f2a", "nginx"⟩, ⟨"9c1d", "redis"⟩], none)
  latency := fun _ => 1000000000

/-- The second words of the compound alternatives `service <sub>` of `commandExpression`. -/
def serviceSubCommands : List String :=
  ["create", "inspect", "logs", "ls", "ps", "rollback", "scale", "update"]

/-- A world whose cache holds, under the key of the term ubu, a list stored at time 0 and
whose clock stands at 400 seconds. -/
def staleWorld : World :=
  ⟨400000000000,
    fun k => if k = "completer:ubu" then some ⟨[⟨"ubuntu", "(Official) old"⟩], 300000000000⟩
      else none,
    []⟩

/-- The token `t` is reached in `alts` after alternatives that are all incomparable with it
under the prefix order. -/
def firstAt : List String → String → Bool
  | [], _ => false
  | a :: as, t =>
    if a = t then true
    else (!a.data.isPrefixOf t.data && !t.data.isPrefixOf a.data) && firstAt as t

/-- The leading word of a line: its text before the first whitespace character. -/
def leadingWord (text : String) : String :=
  ⟨text.data.takeWhile (fun c => !isSpace c)⟩

/-- The index at which the match returned by `findFrom` starts, the first entry of what
`FindStringSubmatchIndex` reports. -/
def matchStart : List Char → Option Nat
  | [] => none
  | c :: cs =>
    match matchHere commandAlternatives (c :: cs) with
    | some _ => some 0
    | none => (matchStart cs).map (fun i => i + 1)

/-- The suggestion `imageFetchCompleter` is to build from one search result: the name, and the
description behind the tag of the official flag. -/
def taggedSuggest (r : SearchResult) : Suggest :=
  ⟨r.Name, (if r.IsOfficial then "(Official) " else "(Not Official) ") ++ r.Description⟩

/-- The search results `imageFetchCompleter` converts: those of the Hub listing for the empty
term, those of the runtime search otherwise. -/
def searchResultsOf (env : Env) (imageName : String) (w : World) : List SearchResult :=
  if imageName = "" then (imageFromHubAPI env 10 w).1 else (imageFromContext env imageName 10 w).1

/-- The request `imageFromHubAPI` sends for page one of the public catalog listing. -/
def hubListingRequest : Request :=
  ⟨"GET", "https://registry.hub.docker.com/v2/repositories/library?page=1&page_size=10",
    [("Content-Type", "application/json")]⟩

/-- The call is a search of the runtime. -/
def Call.isImageSearch : Call → Bool
  | Call.ImageSearch _ _ _ => true
  | _ => false

/-- The call is an HTTP request. -/
def Call.isHttpDo : Call → Bool
  | Call.httpDo _ _ => true
  | _ => false

/-- A container as the daemon holds it, running or not. -/
structure DaemonContainer where
  container : Container
  running : Bool

/-- The answer of a Docker daemon that holds the given containers to a listing request, as the
Engine API documents the option All: all containers when it is set, the running ones only
when it is not. -/
def daemonContainerList (cs : List DaemonContainer) (options : ContainerListOptions) :
    List Container × GoError :=
  ((if options.All then cs else cs.filter (fun c => c.running)).map (fun c => c.container), none)

/-- The sample environment with a daemon that holds the given containers. -/
def daemonEnv (cs : List DaemonContainer) : Env :=
  { sampleEnv with ContainerList := daemonContainerList cs }

/-- A daemon with one running and one stopped container. -/
def sampleDaemon : List DaemonContainer :=
  [⟨⟨"4f2a", "nginx"⟩, true⟩, ⟨⟨"9c1d", "redis"⟩, false⟩]

/-- An environment in which the Hub answers with a payload that decodes only in part: the
decoder reports a type error for one field and has filled one entry of the results. -/
def partialDecodeEnv : Env :=
  { sampleEnv with
    jsonDecode := fun _ =>
      (⟨none, none, none, none, none, [⟨0, false, "alpine", false, "A minimal image"⟩]⟩,
        some "json: cannot unmarshal string into Go struct field of type bool") }

/-- An environment in which the listing of the runtime fails after the client has decoded one
container: it returns that container together with the error. -/
def partialListEnv : Env :=
  { sampleEnv with
    ContainerList := fun _ =>
      ([⟨"4f2a", "nginx"⟩], some "json: cannot unmarshal string into Go struct field of type int64") }

/-- An environment in which every external call fails: no HTTP response, and the runtime
returns nil lists with an error. -/
def failingEnv : Env :=
  { sampleEnv with
    httpDo := fun _ => none
    ImageSearch := fun _ _ => ([], some "context deadline exceeded")
    ContainerList := fun _ => ([], some "Cannot connect to the Docker daemon") }

/-- A whitespace character inside an alternative is the space of a compound token, behind the
word service. -/
def spaceOnlyInCompound (t : String) : Bool :=
  (List.range t.data.length).all (fun n =>
    !isSpace (t.data.getD n 'x') ||
      (t.data.take n == "service".data && t.data.getD n 'x' == ' ' &&
        serviceSubCommands.any (fun sub => t == "service " ++ sub)))

/-- The texts of a list of suggestions. -/
def textsOf (l : List Suggest) : List String :=
  l.map (fun s => s.Text)

/-- The deadline an external call carries, `none` when it has none. -/
def Call.deadline : Call → Option Duration
  | Call.httpDo _ timeout => some timeout
  | Call.ImageSearch _ _ timeout => timeout
  | Call.ContainerList _ timeout => timeout

/-- The call is a catalog search: the Hub listing or the search of the runtime. -/
def Call.isCatalogSearch (c : Call) : Bool :=
  c.isHttpDo || c.isImageSearch

/-- An environment whose runtime search answers with the same name twice. -/
def duplicateSearchEnv : Env :=
  { sampleEnv with
    ImageSearch := fun _ _ =>
      ([⟨9, true, "ubuntu", false, "Ubuntu base image"⟩,
        ⟨2, false, "ubuntu", false, "Ubuntu mirror"⟩], none) }

/-- The catalog search for the term fails: no HTTP response for the empty term, an error of the
runtime search otherwise. -/
def searchFails (env : Env) (term : String) : Bool :=
  if term = "" then (env.httpDo hubListingRequest).isNone
  else (env.ImageSearch term ⟨10⟩).2.isSome

/-- The text `s` reads the token `t` followed by a whitespace character at its start. -/
def readsHere (s : List Char) (t : String) : Bool :=
  s.take t.data.length == t.data &&
    match (s.drop t.data.length).head? with
    | some c => isSpace c
    | none => false

/-- The token `t` qualifies at index `i` of the line: there the line reads `t` followed by a
whitespace character. -/
def qualifiesAt (line : List Char) (i : Nat) (t : String) : Bool :=
  readsHere (line.drop i) t

/-- The leftmost-first reference for the unanchored pattern: the smallest index at which some
token qualifies, and among the tokens that qualify there the earliest in the alternation
order; `none` when no index and token qualify. -/
def referenceCommand (line : List Char) : Option String :=
  match (List.range (line.length + 1)).find?
      (fun i => commandAlternatives.any (fun t => qualifiesAt line i t)) with
  | none => none
  | some i => commandAlternatives.find? (fun t => qualifiesAt line i t)

/-- The token `t` is reached in `alts` after alternatives that are all incomparable with the
text `p` under the prefix order. -/
def firstAtUnder : List String → String → String → Bool
  | [], _, _ => false
  | a :: as, t, p =>
    if a = t then true
    else (!a.data.isPrefixOf p.data && !p.data.isPrefixOf a.data) && firstAtUnder as t p

/-! # Theorems -/

/-! ## The context extractor -/

theorem matchAlt_some {t : String} {s : List Char} {m : List String} (h : matchAlt t s = some m) :
    ∃ c rest, isSpace c = true ∧ s = t.data ++ c :: rest ∧ m = [⟨t.data ++ [c]⟩, t] := by
  unfold matchAlt at h
  split at h
  · rename_i hp
    obtain ⟨r, hr⟩ := List.isPrefixOf_iff_prefix.mp hp
    subst hr
    rw [List.drop_left] at h
    cases r with
    | nil => simp at h
    | cons c rest =>
      by_cases hc : isSpace c = true
      · simp [hc] at h
        exact ⟨c, rest, hc, rfl, h.symm⟩
      · simp [hc] at h
  · simp at h

theorem matchAlt_self (t : String) (c : Char) (rest : List Char) (hc : isSpace c = true) :
    matchAlt t (t.data ++ c :: rest) = some [⟨t.data ++ [c]⟩, t] := by
  unfold matchAlt
  have hp : t.data.isPrefixOf (t.data ++ c :: rest) = true :=
    List.isPrefixOf_iff_prefix.mpr (List.prefix_append _ _)
  simp [hp, hc]

theorem matchHere_some {alts : List String} {s : List Char} {m : List String}
    (h : matchHere alts s = some m) :
    ∃ t c rest, t ∈ alts ∧ isSpace c = true ∧ s = t.data ++ c :: rest ∧
      m = [⟨t.data ++ [c]⟩, t] := by
  unfold matchHere at h
  obtain ⟨t, ht, hm⟩ := List.exists_of_findSome?_eq_some h
  obtain ⟨c, rest, hc, hs, hmm⟩ := matchAlt_some hm
  exact ⟨t, c, rest, ht, hc, hs, hmm⟩

theorem matchHere_nil (alts : List String) : matchHere alts [] = none := by
  cases h : matchHere alts [] with
  | none => rfl
  | some m =>
    obtain ⟨t, c, rest, _, _, hs, _⟩ := matchHere_some h
    simp at hs

theorem findFrom_some {s : List Char} {m : List String} (h : findFrom s = some m) :
    ∃ pre t c rest, t ∈ commandAlternatives ∧ isSpace c = true ∧
      s = pre ++ t.data ++ c :: rest ∧ m = [⟨t.data ++ [c]⟩, t] := by
  induction s with
  | nil =>
    rw [findFrom, matchHere_nil] at h
    simp at h
  | cons a s ih =>
    rw [findFrom] at h
    cases hm : matchHere commandAlternatives (a :: s) with
    | some m2 =>
      rw [hm] at h
      simp only [Option.some.injEq] at h
      subst h
      obtain ⟨t, c, rest, ht, hc, hs, hmm⟩ := matchHere_some hm
      exact ⟨[], t, c, rest, ht, hc, by simpa using hs, hmm⟩
    | none =>
      rw [hm] at h
      obtain ⟨pre, t, c, rest, ht, hc, hs, hmm⟩ := ih h
      exact ⟨a :: pre, t, c, rest, ht, hc, by simp [hs], hmm⟩

theorem findFrom_of_matchHere {s : List Char} {m : List String}
    (h : matchHere commandAlternatives s = some m) : findFrom s = some m := by
  cases s with
  | nil => rw [findFrom, h]
  | cons a s => rw [findFrom, h]

theorem getRegexGroups_of_findFrom {text : String} {whole t : String}
    (h : findFrom text.data = some [whole, t]) :
    getRegexGroups text = some [("command", t)] := by
  simp [getRegexGroups, commandExpression.Match, commandExpression.FindStringSubmatch,
    commandExpression.SubexpNames, h, List.enum, List.enumFrom, StringMap.set]

theorem getRegexGroups_none_of_findFrom {text : String} (h : findFrom text.data = none) :
    getRegexGroups text = none := by
  simp [getRegexGroups, commandExpression.Match, h]

theorem getRegexGroups_some {text : String} {g : StringMap} (h : getRegexGroups text = some g) :
    ∃ pre t c rest, t ∈ commandAlternatives ∧ isSpace c = true ∧
      text.data = pre ++ t.data ++ c :: rest ∧ g = [("command", t)] := by
  cases hf : findFrom text.data with
  | none => rw [getRegexGroups_none_of_findFrom hf] at h; simp at h
  | some m =>
    obtain ⟨pre, t, c, rest, ht, hc, hs, hm⟩ := findFrom_some hf
    subst hm
    rw [getRegexGroups_of_findFrom hf] at h
    simp only [Option.some.injEq] at h
    exact ⟨pre, t, c, rest, ht, hc, hs, h.symm⟩

theorem commandOf_some {text : String} {c : String} (h : commandOf text = some c) :
    getRegexGroups text = some [("command", c)] ∧ c ∈ commandAlternatives := by
  unfold commandOf at h
  cases hg : getRegexGroups text with
  | none => rw [hg] at h; simp at h
  | some g =>
    obtain ⟨pre, t, ch, rest, ht, _, _, hgt⟩ := getRegexGroups_some hg
    subst hgt
    rw [hg] at h
    simp [StringMap.get, List.lookup] at h
    subst h
    exact ⟨rfl, ht⟩

theorem commandOf_none {text : String} (h : getRegexGroups text = none) :
    commandOf text = none := by
  simp [commandOf, h]


/-! ## The prefix filter -/

theorem foldl_append_if {α : Type} (p : α → Bool) (l : List α) (acc : List α) :
    l.foldl (fun ret s => if p s then ret ++ [s] else ret) acc = acc ++ l.filter p := by
  induction l generalizing acc with
  | nil => simp
  | cons a l ih =>
    simp only [List.foldl_cons, ih, List.filter_cons]
    by_cases h : p a = true <;> simp [h]

theorem isPrefixOf_map_eq (f : Char → Char) (ws ts : List Char) :
    (ws.map f).isPrefixOf (ts.map f) =
      (decide (ws.length ≤ ts.length) && (List.zip ts ws).all (fun p => decide (f p.1 = f p.2))) := by
  induction ws generalizing ts with
  | nil => simp
  | cons a ws ih =>
    cases ts with
    | nil => simp
    | cons b ts =>
      simp only [List.map_cons, List.isPrefixOf, ih, List.length_cons, List.zip_cons_cons,
        List.all_cons, Nat.add_le_add_iff_right]
      by_cases h : f b = f a
      · simp [h]
      · have h2 : ¬ f a = f b := fun e => h e.symm
        simp [h, h2]

theorem ascii_upper (tbl : Char → Char) (c : Char) (h : c.toNat < 128) :
    unicodeToUpper tbl c = c.toUpper := by
  have h1 : c.toNat ≤ 127 := by omega
  simp only [unicodeToUpper, h1, if_true, Char.toUpper]
  rfl

theorem beyond_ascii_upper (tbl : Char → Char) (c : Char) (h : ¬ c.toNat < 128) :
    unicodeToUpper tbl c = tbl c := by
  have h1 : ¬ c.toNat ≤ 127 := by omega
  simp only [unicodeToUpper, h1, if_false]

theorem ascii_case_table :
    ∀ n : Fin 128, (Char.ofNat n).toUpper.toLower = (Char.ofNat n).toLower
      ∧ (Char.ofNat n).toLower.toUpper = (Char.ofNat n).toUpper := by
  decide

theorem ascii_case_round (c : Char) (h : c.toNat < 128) :
    c.toUpper.toLower = c.toLower ∧ c.toLower.toUpper = c.toUpper := by
  have := ascii_case_table ⟨c.toNat, h⟩
  simpa using this

theorem eqIgnoringCase_eq (tbl : Char → Char) (a b : Char) :
    eqIgnoringCase tbl a b = decide (unicodeToUpper tbl a = unicodeToUpper tbl b) := by
  unfold eqIgnoringCase
  by_cases ha : a.toNat < 128 <;> by_cases hb : b.toNat < 128
  · rw [ascii_upper tbl a ha, ascii_upper tbl b hb]
    simp only [ha, hb, and_self, if_true]
    obtain ⟨ha1, ha2⟩ := ascii_case_round a ha
    obtain ⟨hb1, hb2⟩ := ascii_case_round b hb
    by_cases hl : a.toLower = b.toLower
    · have hu : a.toUpper = b.toUpper := by rw [← ha2, ← hb2, hl]
      simp [hl, hu]
    · have hu : ¬ a.toUpper = b.toUpper := by
        intro hu
        apply hl
        rw [← ha1, ← hb1, hu]
      simp [hl, hu]
  · rw [ascii_upper tbl a ha, beyond_ascii_upper tbl b hb]
    simp [ha, hb]
  · rw [beyond_ascii_upper tbl a ha, ascii_upper tbl b hb]
    simp [ha, hb]
  · rw [beyond_ascii_upper tbl a ha, beyond_ascii_upper tbl b hb]
    simp [ha, hb]

theorem hasPrefix_toUpper (tbl : Char → Char) (text word : String) :
    HasPrefix (ToUpper tbl text) (ToUpper tbl word) = beginsWithIgnoringCase tbl text word := by
  simp only [HasPrefix, ToUpper, beginsWithIgnoringCase, eqIgnoringCase_eq]
  exact isPrefixOf_map_eq _ _ _

theorem beginsWithIgnoringCase_empty (tbl : Char → Char) (text : String) :
    beginsWithIgnoringCase tbl text "" = true := by
  simp [beginsWithIgnoringCase]

theorem filterHasPrefix_eq (tbl : Char → Char) (l : List Suggest) (word : String) :
    FilterHasPrefix tbl l word true =
      l.filter (fun s => beginsWithIgnoringCase tbl s.Text word) := by
  unfold FilterHasPrefix filterSuggestions
  by_cases h : word = ""
  · subst h
    simp [beginsWithIgnoringCase_empty]
  · simp only [h, if_false, if_true, foldl_append_if, List.nil_append, hasPrefix_toUpper]


/-- An alternative that is not comparable with `t` under the prefix order cannot match a text
that starts with `t`. -/
theorem matchAlt_none_of_incomparable (a t : String) (rest : List Char)
    (h1 : a.data.isPrefixOf t.data = false) (h2 : t.data.isPrefixOf a.data = false) :
    matchAlt a (t.data ++ rest) = none := by
  unfold matchAlt
  have hp : a.data.isPrefixOf (t.data ++ rest) = false := by
    by_contra hcon
    have hpre : a.data <+: t.data ++ rest :=
      List.isPrefixOf_iff_prefix.mp (by simpa using hcon)
    rcases List.prefix_or_prefix_of_prefix hpre (List.prefix_append t.data rest) with h | h
    · have := List.isPrefixOf_iff_prefix.mpr h
      simp [h1] at this
    · have := List.isPrefixOf_iff_prefix.mpr h
      simp [h2] at this
  simp [hp]

theorem matchHere_of_firstAt (alts : List String) (t : String) (c : Char) (rest : List Char)
    (hf : firstAt alts t = true) (hc : isSpace c = true) :
    matchHere alts (t.data ++ c :: rest) = some [⟨t.data ++ [c]⟩, t] := by
  induction alts with
  | nil => simp [firstAt] at hf
  | cons a as ih =>
    unfold matchHere
    rw [List.findSome?_cons]
    by_cases hat : a = t
    · subst hat
      rw [matchAlt_self _ _ _ hc]
    · simp only [firstAt, hat, if_false, Bool.and_eq_true, Bool.not_eq_true'] at hf
      rw [matchAlt_none_of_incomparable a t _ hf.1.1 hf.1.2]
      exact ih hf.2

theorem isSpace_cases {c : Char} (h : isSpace c = true) :
    c ∈ ['\t', '\n', Char.ofNat 12, '\r', ' '] := by
  simp only [isSpace, Bool.or_eq_true, decide_eq_true_eq] at h
  simp only [List.mem_cons, List.mem_singleton]
  tauto

set_option maxRecDepth 100000 in
theorem token_space_table :
    ∀ t ∈ commandAlternatives, ∀ c ∈ ['\t', '\n', Char.ofNat 12, '\r', ' '],
      commandOf (t ++ String.singleton c) = some t := by
  decide

set_option maxRecDepth 100000 in
theorem root_filter_cases (tbl : Char → Char) :
    textsOf (FilterHasPrefix tbl suggestions "R" true) =
        ["rename", "restart", "rm", "rmi", "run"]
      ∧ textsOf (FilterHasPrefix tbl suggestions "Ex" true) = ["exec", "export", "exit"]
      ∧ textsOf (FilterHasPrefix tbl suggestions "ex" true) = ["exec", "export", "exit"] :=
  ⟨rfl, rfl, rfl⟩

/-- Claim C1. When getRegexGroups finds no command on the line, completer returns the entries of
the root-command list whose text begins, ignoring case, with the word before the cursor, in list
order, and leaves the world as it was; on the empty line with the empty word it returns the whole
list, which has 58 entries, from attach to wait and exit; with the word R it returns rename,
restart, rm, rmi and run, and with the word Ex, as with ex, it returns exec, export and exit. -/
theorem C1_completer_root_list (env : Env) (d : Document) (w : World)
    (h : getRegexGroups d.Text = none) :
    completer env d w =
        (suggestions.filter
          (fun s => beginsWithIgnoringCase env.caseTable s.Text d.WordBeforeCursor), w)
      ∧ completer env ⟨"", ""⟩ w = (suggestions, w)
      ∧ suggestions.length = 58
      ∧ (suggestions.map (fun s => s.Text)).take 1 = ["attach"]
      ∧ (suggestions.map (fun s => s.Text)).drop 56 = ["wait", "exit"]
      ∧ textsOf (completer env ⟨"", "R"⟩ w).1 = ["rename", "restart", "rm", "rmi", "run"]
      ∧ textsOf (completer env ⟨"", "Ex"⟩ w).1 = ["exec", "export", "exit"]
      ∧ textsOf (completer env ⟨"", "ex"⟩ w).1 = ["exec", "export", "exit"] := by
  have h0 : getRegexGroups "" = none := by decide
  have hw : ∀ word, completer env ⟨"", word⟩ w =
      (FilterHasPrefix env.caseTable suggestions word true, w) := by
    intro word
    simp [completer, h0]
  obtain ⟨h1, h2, h3⟩ := root_filter_cases env.caseTable
  refine ⟨?_, ?_, by decide, by decide, by decide, ?_, ?_, ?_⟩
  · simp [completer, h, filterHasPrefix_eq]
  · simp [completer, h0, FilterHasPrefix, filterSuggestions]
  · rw [hw]; exact h1
  · rw [hw]; exact h2
  · rw [hw]; exact h3

theorem C1_witness :
    getRegexGroups "R" = none
      ∧ completer sampleEnv ⟨"R", "R"⟩ initWorld =
        (suggestions.filter (fun s => beginsWithIgnoringCase sampleEnv.caseTable s.Text "R"),
          initWorld)
      ∧ textsOf (completer sampleEnv ⟨"R", "R"⟩ initWorld).1 =
          ["rename", "restart", "rm", "rmi", "run"]
      ∧ textsOf
          (suggestions.filter (fun s => beginsWithIgnoringCase sampleEnv.caseTable s.Text "R")) =
          ["rename", "restart", "rm", "rmi", "run"] :=
  ⟨by decide, (C1_completer_root_list sampleEnv ⟨"R", "R"⟩ initWorld (by decide)).1,
    by decide, by decide⟩

/-- Claim C2. For every alternative t of commandExpression and every character c of the
whitespace class of the pattern, getRegexGroups on t followed by c returns a non-nil map whose
entry command is t. -/
theorem C2_token_then_space (t : String) (ht : t ∈ commandAlternatives) (c : Char)
    (hc : isSpace c = true) :
    ∃ group, getRegexGroups (t ++ String.singleton c) = some group ∧
      group.get "command" = t := by
  have h := token_space_table t ht c (isSpace_cases hc)
  obtain ⟨hg, _⟩ := commandOf_some h
  exact ⟨_, hg, by simp [StringMap.get, List.lookup]⟩

/-- Claim C4. A line without any whitespace character of the pattern yields the nil map: a token
or a part of a token that no whitespace follows is not recognised. -/
theorem C4_no_space_no_command (line : String)
    (h : ∀ c ∈ line.data, isSpace c = false) :
    getRegexGroups line = none := by
  cases hf : findFrom line.data with
  | none => exact getRegexGroups_none_of_findFrom hf
  | some m =>
    obtain ⟨pre, t, c, rest, _, hc, hs, _⟩ := findFrom_some hf
    have hmem : c ∈ line.data := by rw [hs]; simp
    rw [h c hmem] at hc
    simp at hc


set_option maxRecDepth 100000 in
theorem compound_first :
    ∀ sub ∈ serviceSubCommands,
      firstAt commandAlternatives ("service " ++ sub) = true ∧ "service " ++ sub ≠ "service" := by
  decide

/-- Claim C3. For every compound token service sub, every whitespace character c of the pattern
and every suffix s, the command extracted from the token followed by c and s is the compound
token, and not its root service. -/
theorem C3_compound_wins (sub : String) (hsub : sub ∈ serviceSubCommands) (c : Char)
    (hc : isSpace c = true) (s : String) :
    commandOf ("service " ++ sub ++ String.singleton c ++ s) = some ("service " ++ sub)
      ∧ commandOf ("service " ++ sub ++ String.singleton c ++ s) ≠ some "service" := by
  obtain ⟨hfirst, hne⟩ := compound_first sub hsub
  have hdata : ("service " ++ sub ++ String.singleton c ++ s).data =
      ("service " ++ sub).data ++ c :: s.data := by
    simp [String.data_append, String.singleton]
  have hfind := findFrom_of_matchHere
    (matchHere_of_firstAt commandAlternatives ("service " ++ sub) c s.data hfirst hc)
  rw [← hdata] at hfind
  have hg := getRegexGroups_of_findFrom hfind
  have hcmd : commandOf ("service " ++ sub ++ String.singleton c ++ s) =
      some ("service " ++ sub) := by
    simp [commandOf, hg, StringMap.get, List.lookup]
  refine ⟨hcmd, ?_⟩
  rw [hcmd]
  intro hcon
  exact hne (Option.some.inj hcon)

theorem C3_witness :
    commandOf ("service " ++ "logs" ++ String.singleton ' ' ++ "--follow web") =
        some ("service " ++ "logs")
      ∧ commandOf ("service " ++ "logs" ++ String.singleton ' ' ++ "--follow web") ≠
        some "service" :=
  C3_compound_wins "logs" (by decide) ' ' (by decide) "--follow web"

set_option maxRecDepth 100000 in
theorem alternatives_registered :
    ∀ t ∈ commandAlternatives, t ≠ "port" ∧ (subCommandsLookup t).isSome = true := by
  decide

set_option maxRecDepth 100000 in
theorem run_table_dashes (tbl : Char → Char) :
    tableRun.filter (fun s => beginsWithIgnoringCase tbl s.Text "--") =
      tableRun.filter (fun s => "--".data.isPrefixOf s.Text.data) := by
  rfl

theorem completer_of_command (env : Env) (d : Document) (w : World) (c : String)
    (hcmd : commandOf d.Text = some c) :
    completer env d w =
      if c = "exec" ∨ c = "stop" ∨ c = "port" then containerListCompleter env false w
      else if c = "start" then containerListCompleter env true w
      else if c = "pull" then
        (if d.WordBeforeCursor ≠ c then getFromCache env d.WordBeforeCursor w
          else getFromCache env "" w)
      else
        match subCommandsLookup c with
        | some val => (FilterHasPrefix env.caseTable val d.WordBeforeCursor true, w)
        | none => (FilterHasPrefix env.caseTable suggestions d.WordBeforeCursor true, w) := by
  obtain ⟨hg, _⟩ := commandOf_some hcmd
  have hget : StringMap.get [("command", c)] "command" = c := by
    simp [StringMap.get, List.lookup]
  simp only [completer, hg, hget]

set_option maxRecDepth 100000 in
theorem run_filter_cases (tbl : Char → Char) :
    textsOf (FilterHasPrefix tbl tableRun "--IP" true) = ["--ip", "--ip6", "--ipc"]
      ∧ textsOf (FilterHasPrefix tbl tableRun "--ip" true) = ["--ip", "--ip6", "--ipc"] :=
  ⟨rfl, rfl⟩

/-- Claim C5. When the extracted command c is none of exec, stop, start and pull, the registry has
a table for c and completer returns the entries of that table whose text begins, ignoring case,
with the word, in table order, leaving the world as it was; on the line run -- with the word --
the result is the run table restricted to the entries that begin with --, and on the line
run --IP with the word --IP, as with --ip, it is the entries --ip, --ip6 and --ipc. -/
theorem C5_registry_table_filtered (env : Env) (d : Document) (w : World) (c : String)
    (hcmd : commandOf d.Text = some c) (hnot : c ∉ ["exec", "stop", "start", "pull"]) :
    (∃ table, subCommandsLookup c = some table ∧
        completer env d w =
          (table.filter
            (fun s => beginsWithIgnoringCase env.caseTable s.Text d.WordBeforeCursor), w))
      ∧ completer env ⟨"run --", "--"⟩ w =
          (tableRun.filter (fun s => "--".data.isPrefixOf s.Text.data), w)
      ∧ textsOf (completer env ⟨"run --IP", "--IP"⟩ w).1 = ["--ip", "--ip6", "--ipc"]
      ∧ textsOf (completer env ⟨"run --ip", "--ip"⟩ w).1 = ["--ip", "--ip6", "--ipc"] := by
  have htable : subCommandsLookup "run" = some tableRun := rfl
  have hw : ∀ line word, commandOf line = some "run" → completer env ⟨line, word⟩ w =
      (FilterHasPrefix env.caseTable tableRun word true, w) := by
    intro line word hrun
    rw [completer_of_command env ⟨line, word⟩ w "run" hrun]
    simp [htable]
  obtain ⟨h1, h2⟩ := run_filter_cases env.caseTable
  refine ⟨?_, ?_, ?_, ?_⟩
  · obtain ⟨_, hmem⟩ := commandOf_some hcmd
    obtain ⟨hport, hsome⟩ := alternatives_registered c hmem
    obtain ⟨table, htable⟩ := Option.isSome_iff_exists.mp hsome
    refine ⟨table, htable, ?_⟩
    simp only [List.mem_cons, List.mem_singleton, List.not_mem_nil, or_false, not_or] at hnot
    rw [completer_of_command env d w c hcmd]
    simp [hnot.1, hnot.2.1, hnot.2.2.1, hnot.2.2.2, hport, htable, filterHasPrefix_eq]
  · rw [hw "run --" "--" (by decide)]
    simp [filterHasPrefix_eq, run_table_dashes]
  · rw [hw "run --IP" "--IP" (by decide)]; exact h1
  · rw [hw "run --ip" "--ip" (by decide)]; exact h2

theorem C5_witness :
    commandOf "run --IP" = some "run" ∧
      "run" ∉ ["exec", "stop", "start", "pull"] ∧
      (∃ table, subCommandsLookup "run" = some table ∧
        completer sampleEnv ⟨"run --IP", "--IP"⟩ initWorld =
          (table.filter (fun s => beginsWithIgnoringCase sampleEnv.caseTable s.Text "--IP"),
            initWorld)) ∧
      textsOf (completer sampleEnv ⟨"run --IP", "--IP"⟩ initWorld).1 =
        ["--ip", "--ip6", "--ipc"] ∧
      textsOf
        (tableRun.filter (fun s => beginsWithIgnoringCase sampleEnv.caseTable s.Text "--IP")) =
        ["--ip", "--ip6", "--ipc"] :=
  ⟨by decide, by decide,
    (C5_registry_table_filtered sampleEnv ⟨"run --IP", "--IP"⟩ initWorld "run"
      (by decide) (by decide)).1,
    by decide, by decide⟩

/-! ## Live resources and the catalog search -/

theorem foldl_append_map {α β : Type} (f : α → β) (l : List α) (acc : List β) :
    l.foldl (fun ret a => ret ++ [f a]) acc = acc ++ l.map f := by
  induction l generalizing acc with
  | nil => simp
  | cons a l ih => simp [List.foldl_cons, ih]

theorem containerListCompleter_eq (env : Env) (all : Bool) (w : World) :
    containerListCompleter env all w =
      ((env.ContainerList ⟨all⟩).1.map (fun c => (⟨c.ID, c.Image⟩ : Suggest)),
        w.record env (Call.ContainerList ⟨all⟩ none)) := by
  simp only [containerListCompleter]
  rw [foldl_append_map (fun c : Container => (⟨c.ID, c.Image⟩ : Suggest))]
  simp

/-- Claim C6. On a line whose extracted command is exec, completer is containerListCompleter with
flag false, on one whose command is start it is containerListCompleter with flag true; the
result is the list of the runtime converted entry by entry, the runtime is asked once with that
flag, and the word before the cursor has no influence. -/
theorem C6_live_resource_dispatch (env : Env) (d : Document) (w : World) (cmd : String)
    (all : Bool) (hcmd : commandOf d.Text = some cmd)
    (hfam : cmd = "exec" ∧ all = false ∨ cmd = "start" ∧ all = true) :
    completer env d w = containerListCompleter env all w
      ∧ (completer env d w).1 =
          (env.ContainerList ⟨all⟩).1.map (fun c => (⟨c.ID, c.Image⟩ : Suggest))
      ∧ (completer env d w).2.calls = w.calls ++ [Call.ContainerList ⟨all⟩ none]
      ∧ ∀ word, completer env ⟨d.Text, word⟩ w = completer env d w := by
  have key : ∀ word, completer env ⟨d.Text, word⟩ w = containerListCompleter env all w := by
    intro word
    rw [completer_of_command env ⟨d.Text, word⟩ w cmd hcmd]
    rcases hfam with ⟨h1, h2⟩ | ⟨h1, h2⟩
    · subst h1; subst h2; simp
    · subst h1; subst h2; simp
  have hd : completer env d w = containerListCompleter env all w := key d.WordBeforeCursor
  refine ⟨hd, ?_, ?_, ?_⟩
  · rw [hd, containerListCompleter_eq]
  · rw [hd, containerListCompleter_eq]; rfl
  · intro word
    rw [key word, hd]

theorem C6_witness :
    (commandOf "exec " = some "exec" ∧
        completer sampleEnv ⟨"exec ", ""⟩ initWorld =
          containerListCompleter sampleEnv false initWorld)
      ∧ (commandOf "start 4" = some "start" ∧
        (completer sampleEnv ⟨"start 4", "4"⟩ initWorld).2.calls =
          initWorld.calls ++ [Call.ContainerList ⟨true⟩ none]) :=
  ⟨⟨by decide,
      (C6_live_resource_dispatch sampleEnv ⟨"exec ", ""⟩ initWorld "exec" false (by decide)
        (Or.inl ⟨rfl, rfl⟩)).1⟩,
    ⟨by decide,
      (C6_live_resource_dispatch sampleEnv ⟨"start 4", "4"⟩ initWorld "start" true (by decide)
        (Or.inr ⟨rfl, rfl⟩)).2.2.1⟩⟩

theorem getFromCache_hit (env : Env) (word : String) (w : World) (cached : List Suggest)
    (h : memoryCache.Get w.items w.now (cacheKeyOf word) = some cached) :
    getFromCache env word w = (cached, w) := by
  simp only [getFromCache, h]

theorem getFromCache_miss (env : Env) (word : String) (w : World)
    (h : memoryCache.Get w.items w.now (cacheKeyOf word) = none) :
    getFromCache env word w =
      ((imageFetchCompleter env word 10 w).1,
        { (imageFetchCompleter env word 10 w).2 with
          items := memoryCache.Set (imageFetchCompleter env word 10 w).2.items
            (imageFetchCompleter env word 10 w).2.now (cacheKeyOf word)
            (imageFetchCompleter env word 10 w).1 DefaultExpiration }) := by
  simp only [getFromCache, h]

/-- Claim C7. On a line whose extracted command is pull, completer is getFromCache of the word when
the word differs from pull, and getFromCache of the empty term, whose key is the sentinel all,
when the word is pull or empty; what getFromCache returns is the cached list on a hit and the
list of imageFetchCompleter on a miss, with no filtering by the word. -/
theorem C7_pull_uses_cached_search (env : Env) (d : Document) (w : World)
    (hcmd : commandOf d.Text = some "pull") :
    (d.WordBeforeCursor ≠ "pull" → completer env d w = getFromCache env d.WordBeforeCursor w)
      ∧ (d.WordBeforeCursor = "pull" ∨ d.WordBeforeCursor = "" →
          completer env d w = getFromCache env "" w)
      ∧ cacheKeyOf "" = "all"
      ∧ ∀ term, (getFromCache env term w).1 =
          match memoryCache.Get w.items w.now (cacheKeyOf term) with
          | some cached => cached
          | none => (imageFetchCompleter env term 10 w).1 := by
  have hc := completer_of_command env d w "pull" hcmd
  refine ⟨?_, ?_, by decide, ?_⟩
  · intro hne
    rw [hc]; simp [hne]
  · intro h
    rw [hc]
    rcases h with h | h
    · simp [h]
    · simp [h]
  · intro term
    cases h : memoryCache.Get w.items w.now (cacheKeyOf term) with
    | some cached => rw [getFromCache_hit env term w cached h]
    | none => rw [getFromCache_miss env term w h]

theorem C7_witness :
    commandOf "pull ubu" = some "pull" ∧
      completer sampleEnv ⟨"pull ubu", "ubu"⟩ initWorld = getFromCache sampleEnv "ubu" initWorld ∧
      (completer sampleEnv ⟨"pull ubu", "ubu"⟩ initWorld).1.map (fun s => s.Text) =
        ["ubuntu", "acme/tools"] :=
  ⟨by decide,
    (C7_pull_uses_cached_search sampleEnv ⟨"pull ubu", "ubu"⟩ initWorld (by decide)).1
      (by decide),
    by decide⟩

/-! ## The cache -/

theorem imageFetchCompleter_world (env : Env) (word : String) (n : Nat) (w : World) :
    (imageFetchCompleter env word n w).2 = w.record env (catalogSearchCall word) := by
  unfold imageFetchCompleter
  by_cases h : word = ""
  · subst h
    have hcall : catalogSearchCall "" =
        Call.httpDo
          (Request.HeaderAdd
            ⟨"GET",
              (URL.String ⟨"https", "registry.hub.docker.com", "/v2/repositories/library",
                "page=1&page_size=" ++ Itoa 10⟩), []⟩
            "Content-Type" "application/json")
          (2 * Second) := by decide
    simp only [if_true, imageFromHubAPI, NewRequest, hcall]
    cases env.httpDo
        (Request.HeaderAdd
          ⟨"GET",
            (URL.String ⟨"https", "registry.hub.docker.com", "/v2/repositories/library",
              "page=1&page_size=" ++ Itoa 10⟩), []⟩
          "Content-Type" "application/json") <;> rfl
  · simp only [h, if_false, imageFromContext, catalogSearchCall]
    rcases env.ImageSearch word ⟨10⟩ with ⟨res, _ | err⟩ <;> rfl

theorem five_minutes_pos : (0 : Int) < 5 * Minute := by decide

/-- Past the int64 range the count wraps: 101 seconds beyond the largest int64 it is negative,
which `Get` and `DeleteExpired` read as no expiry. -/
theorem unixNano_wraps :
    UnixNano (maxInt64 + 101000000000) = -9223371935854775809 := by
  decide

theorem unixNano_of_bounded (t : Int) (h0 : 0 ≤ t) (h1 : t ≤ maxInt64) : UnixNano t = t := by
  unfold UnixNano
  unfold maxInt64 at h1
  omega

/-- An expiry set five minutes after the time `s` has not passed at any time from `s` to five
minutes later, also when the int64 count wraps. -/
theorem fresh_within (s t : Nat) (h1 : s ≤ t) (h2 : (t : Int) ≤ (s : Int) + 5 * Minute) :
    ¬ (UnixNano ((s : Int) + 5 * Minute) > 0 ∧
      UnixNano (t : Int) > UnixNano ((s : Int) + 5 * Minute)) := by
  have hm : (5 * Minute : Int) = 300000000000 := by decide
  rw [hm] at h2 ⊢
  unfold UnixNano
  omega

theorem memoryCache_set_default (items : Items) (now : Nat) (k : String) (x : List Suggest) :
    memoryCache.Set items now k x DefaultExpiration =
      fun key =>
        if key = k then some ⟨x, UnixNano ((now : Int) + 5 * Minute)⟩ else items key := by
  have h1 : memoryCache.defaultExpiration = 5 * Minute := rfl
  have h2 : (5 * Minute : Int) > 0 := five_minutes_pos
  simp only [Cache.Set, h1, if_true, h2]

theorem get_of_entry (items : Items) (now : Nat) (k : String) (item : Item)
    (hk : items k = some item)
    (hfresh : ¬ (item.Expiration > 0 ∧ UnixNano (now : Int) > item.Expiration)) :
    memoryCache.Get items now k = some item.Object := by
  simp only [Cache.Get, hk]
  by_cases hpos : item.Expiration > 0
  · have hn : ¬ (UnixNano (now : Int) > item.Expiration) := fun h => hfresh ⟨hpos, h⟩
    simp [hpos, hn]
  · simp [hpos]

theorem get_of_expired (items : Items) (now : Nat) (k : String) (item : Item)
    (hk : items k = some item) (hpos : 0 < item.Expiration)
    (hlate : item.Expiration < UnixNano (now : Int)) :
    memoryCache.Get items now k = none := by
  simp [Cache.Get, hk, hpos, hlate]

theorem getFromCache_miss_world (env : Env) (word : String) (w : World)
    (h : memoryCache.Get w.items w.now (cacheKeyOf word) = none) :
    (getFromCache env word w).2.now = w.now + env.latency (catalogSearchCall word)
      ∧ (getFromCache env word w).2.calls = w.calls ++ [catalogSearchCall word]
      ∧ (getFromCache env word w).2.items =
          fun key =>
            if key = cacheKeyOf word then
              some ⟨(imageFetchCompleter env word 10 w).1,
                UnixNano (((w.now + env.latency (catalogSearchCall word) : Nat) : Int)
                  + 5 * Minute)⟩
            else w.items key := by
  rw [getFromCache_miss env word w h]
  simp only [imageFetchCompleter_world, memoryCache_set_default, World.record]
  exact ⟨trivial, trivial, trivial⟩

theorem getFromCache_miss_entry (env : Env) (word : String) (w : World)
    (h : memoryCache.Get w.items w.now (cacheKeyOf word) = none) :
    (getFromCache env word w).2.items (cacheKeyOf word) =
      some ⟨(imageFetchCompleter env word 10 w).1,
        UnixNano (((getFromCache env word w).2.now : Int) + 5 * Minute)⟩ := by
  obtain ⟨hnow, _, hitems⟩ := getFromCache_miss_world env word w h
  rw [hitems, hnow]
  simp

theorem getFromCache_now_le (env : Env) (word : String) (w : World) :
    w.now ≤ (getFromCache env word w).2.now := by
  cases h : memoryCache.Get w.items w.now (cacheKeyOf word) with
  | some cached => rw [getFromCache_hit env word w cached h]
  | none => rw [(getFromCache_miss_world env word w h).1]; omega

theorem getFromCache_preserves (env : Env) (word : String) (w : World) (k : String)
    (item : Item) (hk : w.items k = some item)
    (hfresh : ¬ (item.Expiration > 0 ∧ UnixNano (w.now : Int) > item.Expiration)) :
    (getFromCache env word w).2.items k = some item := by
  cases h : memoryCache.Get w.items w.now (cacheKeyOf word) with
  | some cached => rw [getFromCache_hit env word w cached h]; exact hk
  | none =>
    have hne : k ≠ cacheKeyOf word := by
      intro heq
      subst heq
      rw [get_of_entry w.items w.now _ item hk hfresh] at h
      simp at h
    rw [(getFromCache_miss_world env word w h).2.2]
    simp [hne, hk]

theorem completer_world_cases (env : Env) (d : Document) (w : World) :
    (completer env d w).2 = w
      ∨ (∃ all, (completer env d w).2 = w.record env (Call.ContainerList ⟨all⟩ none))
      ∨ (∃ word, (completer env d w).2 = (getFromCache env word w).2) := by
  cases hcmd : commandOf d.Text with
  | none =>
    have hg : getRegexGroups d.Text = none := by
      cases hg : getRegexGroups d.Text with
      | none => rfl
      | some g => simp [commandOf, hg] at hcmd
    left
    simp [completer, hg]
  | some c =>
    rw [completer_of_command env d w c hcmd]
    split_ifs
    · right; left; exact ⟨false, by rw [containerListCompleter_eq]⟩
    · right; left; exact ⟨true, by rw [containerListCompleter_eq]⟩
    · right; right; exact ⟨_, rfl⟩
    · right; right; exact ⟨_, rfl⟩
    · left
      cases subCommandsLookup c <;> rfl

theorem completer_now_le (env : Env) (d : Document) (w : World) :
    w.now ≤ (completer env d w).2.now := by
  rcases completer_world_cases env d w with h | ⟨all, h⟩ | ⟨word, h⟩
  · rw [h]
  · rw [h]; simp [World.record]
  · rw [h]; exact getFromCache_now_le env word w

theorem completer_preserves (env : Env) (d : Document) (w : World) (k : String)
    (item : Item) (hk : w.items k = some item)
    (hfresh : ¬ (item.Expiration > 0 ∧ UnixNano (w.now : Int) > item.Expiration)) :
    (completer env d w).2.items k = some item := by
  rcases completer_world_cases env d w with h | ⟨all, h⟩ | ⟨word, h⟩
  · rw [h]; exact hk
  · rw [h]; exact hk
  · rw [h]; exact getFromCache_preserves env word w k item hk hfresh

theorem apply_now_le (e : Event) (w : World) : w.now ≤ (e.apply w).now := by
  cases e with
  | wait d => simp [Event.apply]
  | janitor => simp [Event.apply]
  | resolve env d => exact completer_now_le env d w

theorem run_now_le (es : List Event) (w : World) : w.now ≤ (run es w).now := by
  induction es generalizing w with
  | nil => simp [run]
  | cons e es ih =>
    have h1 := apply_now_le e w
    have h2 := ih (e.apply w)
    simp only [run, List.foldl_cons] at h2 ⊢
    omega

theorem apply_preserves (e : Event) (w : World) (k : String) (item : Item)
    (hk : w.items k = some item)
    (hfresh : ¬ (item.Expiration > 0 ∧ UnixNano (w.now : Int) > item.Expiration)) :
    (e.apply w).items k = some item := by
  cases e with
  | wait d => simpa [Event.apply] using hk
  | janitor => simp [Event.apply, Cache.DeleteExpired, hk, hfresh]
  | resolve env d => exact completer_preserves env d w k item hk hfresh

theorem run_preserves (es : List Event) (w : World) (k : String) (item : Item) (s : Nat)
    (hk : w.items k = some item)
    (hexp : item.Expiration = UnixNano ((s : Int) + 5 * Minute)) (hs : s ≤ w.now)
    (hnow : ((run es w).now : Int) ≤ (s : Int) + 5 * Minute) :
    (run es w).items k = some item := by
  induction es generalizing w with
  | nil => simpa [run] using hk
  | cons e es ih =>
    have hrun : run (e :: es) w = run es (e.apply w) := rfl
    rw [hrun] at hnow ⊢
    have h1 := apply_now_le e w
    have h2 := run_now_le es (e.apply w)
    have hfresh : ¬ (item.Expiration > 0 ∧ UnixNano (w.now : Int) > item.Expiration) := by
      rw [hexp]
      exact fresh_within s w.now hs (by omega)
    exact ih (e.apply w) (apply_preserves e w k item hk hfresh) (by omega) hnow

theorem hit_within_window (env : Env) (word : String) (w : World)
    (hmiss : memoryCache.Get w.items w.now (cacheKeyOf word) = none)
    (es : List Event) (env2 : Env)
    (hwin : ((run es (getFromCache env word w).2).now : Int) ≤
      ((getFromCache env word w).2.now : Int) + 5 * Minute) :
    getFromCache env2 word (run es (getFromCache env word w).2) =
      ((imageFetchCompleter env word 10 w).1, run es (getFromCache env word w).2) := by
  have hentry := getFromCache_miss_entry env word w hmiss
  have hkept := run_preserves es _ _ _ (getFromCache env word w).2.now hentry rfl
    (Nat.le_refl _) hwin
  have hfresh := fresh_within (getFromCache env word w).2.now
    (run es (getFromCache env word w).2).now (run_now_le es _) hwin
  exact getFromCache_hit env2 word _ _ (get_of_entry _ _ _ _ hkept hfresh)

/-- Claim C8. After a miss of getFromCache on a term has stored its result, and whatever happens
in between (time passing, the janitor, other completions), a further getFromCache on the same
term at a time not later than the store time plus five minutes returns the list of the first
call and leaves the world, the log of external calls included, as it was. -/
theorem C8_hit_within_window (env : Env) (word : String) (w : World)
    (hmiss : memoryCache.Get w.items w.now (cacheKeyOf word) = none)
    (es : List Event) (env2 : Env)
    (hwin : ((run es (getFromCache env word w).2).now : Int) ≤
      ((getFromCache env word w).2.now : Int) + 5 * Minute) :
    getFromCache env2 word (run es (getFromCache env word w).2) =
      ((getFromCache env word w).1, run es (getFromCache env word w).2) := by
  have hres : (getFromCache env word w).1 = (imageFetchCompleter env word 10 w).1 := by
    rw [getFromCache_miss env word w hmiss]
  rw [hres]
  exact hit_within_window env word w hmiss es env2 hwin

theorem C8_witness :
    memoryCache.Get initWorld.items initWorld.now (cacheKeyOf "") = none
      ∧ ((run [Event.wait 200000000000, Event.janitor,
            Event.resolve sampleEnv ⟨"pull ubu", "ubu"⟩]
          (getFromCache sampleEnv "" initWorld).2).now : Int) ≤
          ((getFromCache sampleEnv "" initWorld).2.now : Int) + 5 * Minute
      ∧ getFromCache sampleEnv ""
          (run [Event.wait 200000000000, Event.janitor,
            Event.resolve sampleEnv ⟨"pull ubu", "ubu"⟩]
            (getFromCache sampleEnv "" initWorld).2) =
        ((getFromCache sampleEnv "" initWorld).1,
          run [Event.wait 200000000000, Event.janitor,
            Event.resolve sampleEnv ⟨"pull ubu", "ubu"⟩]
            (getFromCache sampleEnv "" initWorld).2)
      ∧ (completer sampleEnv ⟨"pull ", ""⟩
          (completer sampleEnv ⟨"pull ", ""⟩ initWorld).2).2.calls = [catalogSearchCall ""]
      ∧ (completer sampleEnv ⟨"pull ", ""⟩
          (completer sampleEnv ⟨"pull ", ""⟩ initWorld).2).1 =
        (completer sampleEnv ⟨"pull ", ""⟩ initWorld).1 :=
  ⟨by decide, by decide,
    C8_hit_within_window sampleEnv "" initWorld (by decide)
      [Event.wait 200000000000, Event.janitor, Event.resolve sampleEnv ⟨"pull ubu", "ubu"⟩]
      sampleEnv (by decide),
    by decide, by decide⟩

/-- Claim C9. While the clock is within the int64 range of nanoseconds, an entry whose
valid-until, the store time plus five minutes, lies before the clock is not served, whether the
janitor has purged it or not: the lookup misses, getFromCache returns the list of a new
imageFetchCompleter call, logs that one search and stores the list under the key with the
expiry UnixNano of the new store time plus five minutes, which is that time itself as long as
it is within the int64 range. -/
theorem C9_expired_entry_recomputed (env : Env) (word : String) (w : World) (item : Item)
    (storeTime : Nat) (hitem : w.items (cacheKeyOf word) = some item)
    (hexp : item.Expiration = (storeTime : Int) + 5 * Minute)
    (hlate : item.Expiration < (w.now : Int))
    (hclock : (w.now : Int) ≤ maxInt64) :
    ∀ w2, (w2 = w ∨ w2 = Event.janitor.apply w) →
      memoryCache.Get w2.items w2.now (cacheKeyOf word) = none
        ∧ (getFromCache env word w2).1 = (imageFetchCompleter env word 10 w2).1
        ∧ (getFromCache env word w2).2.calls = w2.calls ++ [catalogSearchCall word]
        ∧ (getFromCache env word w2).2.items (cacheKeyOf word) =
            some ⟨(imageFetchCompleter env word 10 w2).1,
              UnixNano (((getFromCache env word w2).2.now : Int) + 5 * Minute)⟩
        ∧ (((getFromCache env word w2).2.now : Int) + 5 * Minute ≤ maxInt64 →
            (getFromCache env word w2).2.items (cacheKeyOf word) =
              some ⟨(imageFetchCompleter env word 10 w2).1,
                ((getFromCache env word w2).2.now : Int) + 5 * Minute⟩) := by
  have hpos : 0 < item.Expiration := by
    have := five_minutes_pos
    omega
  have hunix : UnixNano (w.now : Int) = (w.now : Int) :=
    unixNano_of_bounded _ (by omega) hclock
  have hlate2 : item.Expiration < UnixNano (w.now : Int) := by rw [hunix]; exact hlate
  intro w2 hw2
  have hget : memoryCache.Get w2.items w2.now (cacheKeyOf word) = none := by
    rcases hw2 with h | h
    · subst h
      exact get_of_expired _ _ _ item hitem hpos hlate2
    · subst h
      simp [Event.apply, Cache.Get, Cache.DeleteExpired, hitem, hpos, hlate2]
  obtain ⟨_, hcalls, _⟩ := getFromCache_miss_world env word w2 hget
  have hentry := getFromCache_miss_entry env word w2 hget
  refine ⟨hget, ?_, hcalls, hentry, ?_⟩
  · rw [getFromCache_miss env word w2 hget]
  · intro hb
    have hm := five_minutes_pos
    rw [hentry, unixNano_of_bounded _ (by omega) hb]

/-- Claim C10. On a miss, getFromCache returns the list of imageFetchCompleter for the term, makes
exactly the one search call for that term, stores the list under the key of the term with the
expiry UnixNano of the store time plus five minutes, and leaves every other key as it was;
while the clock is within the int64 range that expiry is the store time plus five minutes, and
the list is served up to that time and not after; memoryCache is built with five minutes of
default expiry and a purge interval of ten. -/
theorem C10_miss_computes_and_stores (env : Env) (word : String) (w : World)
    (hmiss : memoryCache.Get w.items w.now (cacheKeyOf word) = none) :
    (getFromCache env word w).1 = (imageFetchCompleter env word 10 w).1
      ∧ (getFromCache env word w).2.calls = w.calls ++ [catalogSearchCall word]
      ∧ (getFromCache env word w).2.items (cacheKeyOf word) =
          some ⟨(imageFetchCompleter env word 10 w).1,
            UnixNano (((getFromCache env word w).2.now : Int) + 5 * Minute)⟩
      ∧ (((getFromCache env word w).2.now : Int) + 5 * Minute ≤ maxInt64 →
          (getFromCache env word w).2.items (cacheKeyOf word) =
              some ⟨(imageFetchCompleter env word 10 w).1,
                ((getFromCache env word w).2.now : Int) + 5 * Minute⟩
            ∧ ∀ t : Nat, (t : Int) ≤ maxInt64 →
                (memoryCache.Get (getFromCache env word w).2.items t (cacheKeyOf word) =
                    some (getFromCache env word w).1 ↔
                  (t : Int) ≤ ((getFromCache env word w).2.now : Int) + 5 * Minute))
      ∧ (∀ k, k ≠ cacheKeyOf word → (getFromCache env word w).2.items k = w.items k)
      ∧ memoryCache = New (5 * Minute) (10 * Minute)
      ∧ memoryCache.cleanupInterval = 10 * Minute := by
  obtain ⟨_, hcalls, hitems⟩ := getFromCache_miss_world env word w hmiss
  have hres : (getFromCache env word w).1 = (imageFetchCompleter env word 10 w).1 := by
    rw [getFromCache_miss env word w hmiss]
  have hentry := getFromCache_miss_entry env word w hmiss
  have hm := five_minutes_pos
  refine ⟨hres, hcalls, hentry, ?_, ?_, rfl, rfl⟩
  · intro hb
    have hu : UnixNano (((getFromCache env word w).2.now : Int) + 5 * Minute) =
        ((getFromCache env word w).2.now : Int) + 5 * Minute :=
      unixNano_of_bounded _ (by omega) hb
    rw [hu] at hentry
    refine ⟨hentry, ?_⟩
    intro t ht
    have htu : UnixNano (t : Int) = (t : Int) := unixNano_of_bounded _ (by omega) ht
    constructor
    · intro hget
      by_contra hcon
      have hlt : ((getFromCache env word w).2.now : Int) + 5 * Minute < UnixNano (t : Int) := by
        rw [htu]; omega
      have hpos : (0 : Int) < ((getFromCache env word w).2.now : Int) + 5 * Minute := by omega
      rw [get_of_expired _ t _ _ hentry hpos hlt] at hget
      simp at hget
    · intro hle
      have hfresh : ¬ ((0 : Int) < ((getFromCache env word w).2.now : Int) + 5 * Minute ∧
          UnixNano (t : Int) > ((getFromCache env word w).2.now : Int) + 5 * Minute) := by
        rw [htu]
        intro hcon
        omega
      rw [get_of_entry _ t _ _ hentry hfresh, hres]
  · intro k hk
    rw [hitems]
    simp [hk]

theorem C2_witness :
    "rmi" ∈ commandAlternatives ∧ isSpace '\t' = true ∧
      ∃ group, getRegexGroups ("rmi" ++ String.singleton '\t') = some group ∧
        group.get "command" = "rmi" :=
  ⟨by decide, by decide, C2_token_then_space "rmi" (by decide) '\t' (by decide)⟩

theorem C4_witness :
    ((∀ c ∈ "run".data, isSpace c = false) ∧ getRegexGroups "run" = none)
      ∧ ((∀ c ∈ "ru".data, isSpace c = false) ∧ getRegexGroups "ru" = none) :=
  ⟨⟨by decide, C4_no_space_no_command "run" (by decide)⟩,
    ⟨by decide, C4_no_space_no_command "ru" (by decide)⟩⟩

theorem C9_witness :
    staleWorld.items (cacheKeyOf "ubu") = some ⟨[⟨"ubuntu", "(Official) old"⟩], 300000000000⟩
      ∧ (300000000000 : Int) = ((0 : Nat) : Int) + 5 * Minute
      ∧ (300000000000 : Int) < (staleWorld.now : Int)
      ∧ (staleWorld.now : Int) ≤ maxInt64
      ∧ memoryCache.Get staleWorld.items staleWorld.now (cacheKeyOf "ubu") = none
      ∧ (getFromCache sampleEnv "ubu" staleWorld).1 =
          (imageFetchCompleter sampleEnv "ubu" 10 staleWorld).1
      ∧ (getFromCache sampleEnv "ubu" staleWorld).2.calls =
          staleWorld.calls ++ [catalogSearchCall "ubu"]
      ∧ ((getFromCache sampleEnv "ubu" staleWorld).2.now : Int) + 5 * Minute ≤ maxInt64
      ∧ (getFromCache sampleEnv "ubu" staleWorld).2.items (cacheKeyOf "ubu") =
          some ⟨(imageFetchCompleter sampleEnv "ubu" 10 staleWorld).1,
            ((getFromCache sampleEnv "ubu" staleWorld).2.now : Int) + 5 * Minute⟩ :=
  have h := C9_expired_entry_recomputed sampleEnv "ubu" staleWorld
    ⟨[⟨"ubuntu", "(Official) old"⟩], 300000000000⟩ 0 (by decide) (by decide) (by decide)
    (by decide) staleWorld (Or.inl rfl)
  ⟨by decide, by decide, by decide, by decide, h.1, h.2.1, h.2.2.1, by decide,
    h.2.2.2.2 (by decide)⟩

theorem C10_witness :
    memoryCache.Get initWorld.items initWorld.now (cacheKeyOf "ubu") = none
      ∧ (getFromCache sampleEnv "ubu" initWorld).1 =
          (imageFetchCompleter sampleEnv "ubu" 10 initWorld).1
      ∧ (getFromCache sampleEnv "ubu" initWorld).2.calls =
          initWorld.calls ++ [catalogSearchCall "ubu"]
      ∧ ((getFromCache sampleEnv "ubu" initWorld).2.now : Int) + 5 * Minute ≤ maxInt64
      ∧ (getFromCache sampleEnv "ubu" initWorld).2.items (cacheKeyOf "ubu") =
          some ⟨(imageFetchCompleter sampleEnv "ubu" 10 initWorld).1,
            ((getFromCache sampleEnv "ubu" initWorld).2.now : Int) + 5 * Minute⟩
      ∧ (getFromCache sampleEnv "ubu" initWorld).2.items (cacheKeyOf "ubu") =
          some ⟨[⟨"ubuntu", "(Official) Ubuntu base image"⟩,
            ⟨"acme/tools", "(Not Official) Build tools"⟩], 301000000000⟩ :=
  have h := C10_miss_computes_and_stores sampleEnv "ubu" initWorld (by decide)
  ⟨by decide, h.1, h.2.1, by decide, (h.2.2.2.1 (by decide)).1, by decide⟩

/-! ## The catalog search and the lister, result by result -/

theorem imageFetchCompleter_list (env : Env) (imageName : String) (count : Nat) (w : World) :
    (imageFetchCompleter env imageName count w).1 =
      (searchResultsOf env imageName w).map taggedSuggest := by
  have hfold : ∀ l : List SearchResult,
      l.foldl
        (fun suggestions s =>
          suggestions ++ [(⟨s.Name, "(" ++ (if s.IsOfficial then "Official" else "Not Official")
            ++ ") " ++ s.Description⟩ : Suggest)]) [] = l.map taggedSuggest := by
    intro l
    rw [foldl_append_map (fun s : SearchResult =>
      (⟨s.Name, "(" ++ (if s.IsOfficial then "Official" else "Not Official")
        ++ ") " ++ s.Description⟩ : Suggest))]
    simp only [List.nil_append]
    apply List.map_congr_left
    intro r _
    cases h : r.IsOfficial <;> simp [taggedSuggest, h]
  unfold imageFetchCompleter searchResultsOf
  by_cases h : imageName = ""
  · simp only [h, if_true]
    exact hfold _
  · simp only [h, if_false]
    exact hfold _

/-- Claim C11. The list of imageFetchCompleter is the list of search results converted one by
one, in order and of the same length: the text is the name of the result, the description is
the description of the result behind (Official) when the official flag is set and behind
(Not Official) when it is not; completing pull ubu with the word ubu searches the runtime for
ubu and returns its two results tagged in this way. -/
theorem C11_results_tagged (env : Env) (imageName : String) (count : Nat) (w : World) :
    (imageFetchCompleter env imageName count w).1 =
        (searchResultsOf env imageName w).map
          (fun r => (⟨r.Name,
            (if r.IsOfficial then "(Official) " else "(Not Official) ") ++ r.Description⟩ :
              Suggest))
      ∧ (imageFetchCompleter env imageName count w).1.length =
          (searchResultsOf env imageName w).length
      ∧ (∀ i : Nat, ((imageFetchCompleter env imageName count w).1)[i]? =
          ((searchResultsOf env imageName w)[i]?).map taggedSuggest)
      ∧ completer sampleEnv ⟨"pull ubu", "ubu"⟩ initWorld =
          ([⟨"ubuntu", "(Official) Ubuntu base image"⟩,
            ⟨"acme/tools", "(Not Official) Build tools"⟩],
            (getFromCache sampleEnv "ubu" initWorld).2)
      ∧ (completer sampleEnv ⟨"pull ubu", "ubu"⟩ initWorld).2.calls =
          [Call.ImageSearch "ubu" ⟨10⟩ (some (2 * Second))] := by
  have h := imageFetchCompleter_list env imageName count w
  refine ⟨?_, ?_, ?_, ?_, by decide⟩
  · rw [h]; rfl
  · rw [h, List.length_map]
  · intro i
    rw [h, List.getElem?_map]
  · have hc : completer sampleEnv ⟨"pull ubu", "ubu"⟩ initWorld =
        getFromCache sampleEnv "ubu" initWorld := by
      rw [completer_of_command sampleEnv ⟨"pull ubu", "ubu"⟩ initWorld "pull" (by decide)]
      simp
    rw [hc]
    have h1 : (getFromCache sampleEnv "ubu" initWorld).1 =
        [⟨"ubuntu", "(Official) Ubuntu base image"⟩,
          ⟨"acme/tools", "(Not Official) Build tools"⟩] := by decide
    rw [← h1]

/-- Claim C12. The term alone selects the source: for the empty term imageFetchCompleter makes
one external call, the GET of page one of the public catalog listing with page size 10, and no
search of the runtime; for a non-empty term it makes one external call, the search of the
runtime for exactly that term, and no HTTP request. -/
theorem C12_source_by_term (env : Env) (count : Nat) (w : World) (term : String)
    (hterm : term ≠ "") :
    ((imageFetchCompleter env "" count w).2.calls =
        w.calls ++ [Call.httpDo hubListingRequest (2 * Second)]
      ∧ hubListingRequest.Url =
          "https://registry.hub.docker.com/v2/repositories/library?page=1&page_size=10"
      ∧ ∀ c ∈ (imageFetchCompleter env "" count w).2.calls, c ∉ w.calls →
          c.isImageSearch = false)
      ∧ ((imageFetchCompleter env term count w).2.calls =
          w.calls ++ [Call.ImageSearch term ⟨10⟩ (some (2 * Second))]
        ∧ ∀ c ∈ (imageFetchCompleter env term count w).2.calls, c ∉ w.calls →
            c.isHttpDo = false) := by
  have h0 : catalogSearchCall "" = Call.httpDo hubListingRequest (2 * Second) := by decide
  have h1 : catalogSearchCall term = Call.ImageSearch term ⟨10⟩ (some (2 * Second)) := by
    simp [catalogSearchCall, hterm]
  refine ⟨⟨?_, rfl, ?_⟩, ?_, ?_⟩
  · rw [imageFetchCompleter_world, h0]; rfl
  · intro c hc hnew
    rw [imageFetchCompleter_world, h0] at hc
    simp only [World.record, List.mem_append, List.mem_singleton] at hc
    rcases hc with hc | hc
    · exact absurd hc hnew
    · subst hc; rfl
  · rw [imageFetchCompleter_world, h1]; rfl
  · intro c hc hnew
    rw [imageFetchCompleter_world, h1] at hc
    simp only [World.record, List.mem_append, List.mem_singleton] at hc
    rcases hc with hc | hc
    · exact absurd hc hnew
    · subst hc; rfl

theorem C12_witness :
    "ubu" ≠ "" ∧
      (imageFetchCompleter sampleEnv "" 10 initWorld).2.calls =
        initWorld.calls ++ [Call.httpDo hubListingRequest (2 * Second)] ∧
      (imageFetchCompleter sampleEnv "ubu" 10 initWorld).2.calls =
        initWorld.calls ++ [Call.ImageSearch "ubu" ⟨10⟩ (some (2 * Second))] :=
  ⟨by decide,
    (C12_source_by_term sampleEnv 10 initWorld "ubu" (by decide)).1.1,
    (C12_source_by_term sampleEnv 10 initWorld "ubu" (by decide)).2.1⟩

/-- The error paths that are checked: without an HTTP response, and with an error of the
runtime search, the catalog search returns the empty list. -/
theorem imageFetchCompleter_checked_errors (env : Env) (count : Nat) (w : World) :
    (env.httpDo hubListingRequest = none → (imageFetchCompleter env "" count w).1 = [])
      ∧ ∀ term, term ≠ "" → (env.ImageSearch term ⟨10⟩).2 ≠ none →
          (imageFetchCompleter env term count w).1 = [] := by
  constructor
  · intro h
    rw [imageFetchCompleter_list]
    have hreq : Request.HeaderAdd ⟨"GET",
        (URL.String ⟨"https", "registry.hub.docker.com", "/v2/repositories/library",
          "page=1&page_size=" ++ Itoa 10⟩), []⟩ "Content-Type" "application/json" =
        hubListingRequest := by decide
    simp [searchResultsOf, imageFromHubAPI, NewRequest, hreq, h]
  · intro term hterm herr
    rw [imageFetchCompleter_list]
    simp only [searchResultsOf, hterm, if_false, imageFromContext]
    rcases hs : env.ImageSearch term ⟨10⟩ with ⟨res, _ | err⟩
    · rw [hs] at herr; simp at herr
    · simp

/-- Claim C14. When the payload of the Hub decodes only in part, so that Decode returns an error
after filling one result, imageFetchCompleter for the empty term returns that result as a
suggestion and not the empty list. -/
theorem C14_decode_error_not_closed :
    (partialDecodeEnv.jsonDecode "body").2 ≠ none
      ∧ (imageFetchCompleter partialDecodeEnv "" 10 initWorld).1 =
          [⟨"alpine", "(Not Official) A minimal image"⟩]
      ∧ (imageFetchCompleter partialDecodeEnv "" 10 initWorld).1 ≠ [] := by
  refine ⟨by decide, by decide, by decide⟩

/-- Claim C16. The list of containerListCompleter is the list of containers the runtime returned,
converted one by one in the same order and of the same length: the text is the ID of the
container, the description is its image. -/
theorem C16_containers_converted (env : Env) (all : Bool) (w : World) (cs : List Container)
    (err : GoError) (h : env.ContainerList ⟨all⟩ = (cs, err)) :
    (containerListCompleter env all w).1 = cs.map (fun c => (⟨c.ID, c.Image⟩ : Suggest))
      ∧ (containerListCompleter env all w).1.length = cs.length
      ∧ ∀ i : Nat, ((containerListCompleter env all w).1)[i]? =
          (cs[i]?).map (fun c => (⟨c.ID, c.Image⟩ : Suggest)) := by
  have hl : (containerListCompleter env all w).1 =
      cs.map (fun c => (⟨c.ID, c.Image⟩ : Suggest)) := by
    rw [containerListCompleter_eq, h]
  refine ⟨hl, ?_, ?_⟩
  · rw [hl, List.length_map]
  · intro i
    rw [hl, List.getElem?_map]

theorem C16_witness :
    sampleEnv.ContainerList ⟨false⟩ = ([⟨"4f2a", "nginx"⟩, ⟨"9c1d", "redis"⟩], none)
      ∧ (containerListCompleter sampleEnv false initWorld).1 =
          [⟨"4f2a", "nginx"⟩, ⟨"9c1d", "redis"⟩] :=
  ⟨rfl, (C16_containers_converted sampleEnv false initWorld _ none rfl).1⟩

/-- A listing that fails with the nil list gives the empty suggestion list. -/
theorem containerListCompleter_nil (env : Env) (all : Bool) (w : World) (err : GoError)
    (h : env.ContainerList ⟨all⟩ = ([], err)) :
    (containerListCompleter env all w).1 = [] := by
  rw [containerListCompleter_eq, h]
  rfl

/-- Claim C17. When the listing of the runtime returns an error together with a container it
had decoded, containerListCompleter drops the error and returns that container as a
suggestion, for either flag, and so does completer on the line exec. -/
theorem C17_listing_error_not_closed :
    (partialListEnv.ContainerList ⟨false⟩).2 ≠ none
      ∧ (partialListEnv.ContainerList ⟨true⟩).2 ≠ none
      ∧ (containerListCompleter partialListEnv false initWorld).1 = [⟨"4f2a", "nginx"⟩]
      ∧ (containerListCompleter partialListEnv true initWorld).1 = [⟨"4f2a", "nginx"⟩]
      ∧ (completer partialListEnv ⟨"exec ", ""⟩ initWorld).1 ≠ [] := by
  refine ⟨by decide, by decide, by decide, by decide, by decide⟩

/-! ## The flag of the lister -/

/-- Claim C15, as stated, fails: with a daemon that holds one running and one stopped container,
the flag true does not give the running container only and the flag false does not give both
containers; it is the other way round. -/
theorem C15_counterexample :
    ¬ ((containerListCompleter (daemonEnv sampleDaemon) true initWorld).1 =
          ((sampleDaemon.filter (fun c => c.running)).map
            (fun c => (⟨c.container.ID, c.container.Image⟩ : Suggest)))
        ∧ (containerListCompleter (daemonEnv sampleDaemon) false initWorld).1 =
          (sampleDaemon.map (fun c => (⟨c.container.ID, c.container.Image⟩ : Suggest)))) := by
  decide

/-- Claim C15, amended. The boolean given to containerListCompleter is handed to the runtime as
the option All of the listing: with true the returned list holds all containers of the daemon,
running or not, and with false it holds the running containers only. -/
theorem C15_flag_is_all_option (cs : List DaemonContainer) (w : World) :
    (containerListCompleter (daemonEnv cs) true w).1 =
        cs.map (fun c => (⟨c.container.ID, c.container.Image⟩ : Suggest))
      ∧ (containerListCompleter (daemonEnv cs) false w).1 =
        (cs.filter (fun c => c.running)).map
          (fun c => (⟨c.container.ID, c.container.Image⟩ : Suggest))
      ∧ ∀ (env : Env) (all : Bool),
          (containerListCompleter env all w).2.calls =
            w.calls ++ [Call.ContainerList ⟨all⟩ none] := by
  refine ⟨?_, ?_, ?_⟩
  · rw [containerListCompleter_eq]
    simp [daemonEnv, daemonContainerList, List.map_map, Function.comp_def]
  · rw [containerListCompleter_eq]
    simp [daemonEnv, daemonContainerList, List.map_map, Function.comp_def]
  · intro env all
    rw [containerListCompleter_eq]
    rfl

/-! ## The vocabulary -/

/-- Claim C20. Whenever getRegexGroups returns a non-nil map, the map is the single entry command
and its value is one of the 41 alternatives of commandExpression. -/
theorem C20_command_in_vocabulary (line : String) (group : StringMap)
    (h : getRegexGroups line = some group) :
    group.get "command" ∈ commandAlternatives
      ∧ group = [("command", group.get "command")]
      ∧ commandAlternatives.length = 41
      ∧ commandAlternatives.Nodup := by
  obtain ⟨pre, t, c, rest, ht, _, _, hg⟩ := getRegexGroups_some h
  subst hg
  have hget : StringMap.get [("command", t)] "command" = t := by
    simp [StringMap.get, List.lookup]
  rw [hget]
  exact ⟨ht, rfl, by decide, by decide⟩

theorem C20_witness :
    getRegexGroups "docker rmi -f " = some [("command", "rmi")]
      ∧ StringMap.get [("command", "rmi")] "command" ∈ commandAlternatives :=
  ⟨by decide,
    (C20_command_in_vocabulary "docker rmi -f " [("command", "rmi")] (by decide)).1⟩

/-! ## Occurrences of a token and text after the match -/

theorem matchHere_ne_none_of_self (t : String) (c : Char) (rest : List Char)
    (ht : t ∈ commandAlternatives) (hc : isSpace c = true) :
    matchHere commandAlternatives (t.data ++ c :: rest) ≠ none := by
  intro hnone
  have hall := List.findSome?_eq_none_iff.mp hnone t ht
  rw [matchAlt_self t c rest hc] at hall
  simp at hall

theorem findFrom_ne_none_of_occurrence (pre : List Char) (t : String) (c : Char)
    (rest : List Char) (ht : t ∈ commandAlternatives) (hc : isSpace c = true) :
    findFrom (pre ++ t.data ++ c :: rest) ≠ none := by
  induction pre with
  | nil =>
    obtain ⟨m, hm⟩ := Option.ne_none_iff_exists'.mp (matchHere_ne_none_of_self t c rest ht hc)
    rw [List.nil_append, findFrom_of_matchHere hm]
    simp
  | cons a pre ih =>
    rw [List.cons_append, List.cons_append, findFrom]
    cases matchHere commandAlternatives (a :: (pre ++ t.data ++ c :: rest)) with
    | some m => simp
    | none => exact ih

theorem commandOf_eq_some_iff (text c : String) :
    commandOf text = some c ↔ ∃ whole, findFrom text.data = some [whole, c] := by
  constructor
  · intro h
    cases hf : findFrom text.data with
    | none =>
      rw [commandOf_none (getRegexGroups_none_of_findFrom hf)] at h
      simp at h
    | some m =>
      obtain ⟨pre, t, ch, rest, _, _, _, hm⟩ := findFrom_some hf
      subst hm
      have hg := getRegexGroups_of_findFrom hf
      simp [commandOf, hg, StringMap.get, List.lookup] at h
      subst h
      exact ⟨_, rfl⟩
  · rintro ⟨whole, hf⟩
    simp [commandOf, getRegexGroups_of_findFrom hf, StringMap.get, List.lookup]

theorem matchAlt_append_of_some {t : String} {u : List Char} {m : List String}
    (s : List Char) (h : matchAlt t u = some m) : matchAlt t (u ++ s) = some m := by
  obtain ⟨c, rest, hc, hu, hm⟩ := matchAlt_some h
  subst hu; subst hm
  rw [List.append_assoc, List.cons_append]
  exact matchAlt_self t c (rest ++ s) hc

theorem prefix_of_new_match {t : String} {u s : List Char} {m : List String}
    (hold : matchAlt t u = none) (hnew : matchAlt t (u ++ s) = some m) :
    u <+: t.data := by
  obtain ⟨c, rest, hc, hus, _⟩ := matchAlt_some hnew
  have h1 : u <+: u ++ s := List.prefix_append u s
  have h2 : t.data <+: u ++ s := by rw [hus]; exact List.prefix_append _ _
  have h3 : t.data ++ [c] <+: u ++ s := by
    rw [hus]
    exact ⟨rest, by simp⟩
  by_cases hlen : u.length ≤ t.data.length
  · exact List.prefix_of_prefix_length_le h1 h2 hlen
  · exfalso
    have hle : (t.data ++ [c]).length ≤ u.length := by
      simp only [List.length_append, List.length_singleton]
      omega
    obtain ⟨r, hr⟩ := List.prefix_of_prefix_length_le h3 h1 hle
    have hu : u = t.data ++ c :: r := by rw [← hr]; simp
    rw [hu, matchAlt_self t c r hc] at hold
    simp at hold

set_option maxRecDepth 100000 in
theorem spaces_in_alternatives :
    ∀ t ∈ commandAlternatives, spaceOnlyInCompound t = true := by
  decide

theorem getD_append_cons (a : List Char) (c : Char) (r : List Char) (d : Char) :
    (a ++ c :: r).getD a.length d = c := by
  induction a with
  | nil => rfl
  | cons x a ih => simpa using ih

theorem compound_of_space_inside {t : String} (ht : t ∈ commandAlternatives)
    {a b : List Char} {c : Char} (hc : isSpace c = true) (hpre : a ++ c :: b <+: t.data) :
    a = "service".data ∧ c = ' ' ∧ ∃ sub ∈ serviceSubCommands, t = "service " ++ sub := by
  obtain ⟨r, hr⟩ := hpre
  have hlen : a.length < t.data.length := by
    rw [← hr]; simp
  have hget : t.data.getD a.length 'x' = c := by
    rw [← hr, List.append_assoc, List.cons_append]
    exact getD_append_cons a c (b ++ r) 'x'
  have htake : t.data.take a.length = a := by
    rw [← hr]; simp
  have hall := spaces_in_alternatives t ht
  simp only [spaceOnlyInCompound, List.all_eq_true, List.mem_range] at hall
  have h := hall a.length hlen
  rw [hget, htake, hc] at h
  simp only [Bool.not_true, Bool.false_or, Bool.and_eq_true, beq_iff_eq, List.any_eq_true] at h
  obtain ⟨⟨h1, h2⟩, sub, hsub, h3⟩ := h
  exact ⟨h1, h2, sub, hsub, h3⟩

theorem string_eq_of_data {a b : String} (h : a.data = b.data) : a = b := by
  cases a; cases b; simp_all

theorem matchHere_none_append {u : List Char} (s : List Char)
    (hnone : matchHere commandAlternatives u = none)
    {a b : List Char} {c : Char} (hc : isSpace c = true) (hu : u = a ++ c :: b) :
    matchHere commandAlternatives (u ++ s) = none := by
  by_contra hcon
  obtain ⟨m, hm⟩ := Option.ne_none_iff_exists'.mp hcon
  obtain ⟨t, ht, hmt⟩ := List.exists_of_findSome?_eq_some hm
  have hold : matchAlt t u = none := List.findSome?_eq_none_iff.mp hnone t ht
  have hpre := prefix_of_new_match hold hmt
  rw [hu] at hpre
  obtain ⟨ha, hsp, _⟩ := compound_of_space_inside ht hc hpre
  have hserv : matchAlt "service" u = none :=
    List.findSome?_eq_none_iff.mp hnone "service" (by decide)
  rw [hu, ha, matchAlt_self "service" c b hc] at hserv
  simp at hserv

theorem matchHere_append (alts : List String) (hsub : ∀ a ∈ alts, a ∈ commandAlternatives)
    {u : List Char} (s : List Char) {whole t : String}
    (h : matchHere alts u = some [whole, t]) :
    ∃ whole2 t2, matchHere alts (u ++ s) = some [whole2, t2] ∧
      (t2 = t ∨ (t = "service" ∧ ∃ sub ∈ serviceSubCommands, t2 = "service " ++ sub)) := by
  induction alts with
  | nil => simp [matchHere] at h
  | cons a as ih =>
    unfold matchHere at h ⊢
    rw [List.findSome?_cons] at h ⊢
    cases hold : matchAlt a u with
    | some m =>
      rw [hold] at h
      simp only [Option.some.injEq] at h
      subst h
      rw [matchAlt_append_of_some s hold]
      exact ⟨whole, t, rfl, Or.inl rfl⟩
    | none =>
      rw [hold] at h
      have hrest : matchHere as u = some [whole, t] := h
      cases hnew : matchAlt a (u ++ s) with
      | some m2 =>
        obtain ⟨c2, rest2, _, _, hm2⟩ := matchAlt_some hnew
        obtain ⟨t1, c, rest, _, hc, hu, hm⟩ := matchHere_some hrest
        have ht1 : t1 = t := by
          simp only [List.cons.injEq, and_true] at hm
          exact hm.2.symm
        subst ht1
        have hpre := prefix_of_new_match hold hnew
        rw [hu] at hpre
        obtain ⟨hserv, _, sub, hsubm, hcomp⟩ :=
          compound_of_space_inside (hsub a (List.mem_cons_self a as)) hc hpre
        refine ⟨_, a, by rw [hm2], Or.inr ⟨string_eq_of_data hserv, sub, hsubm, hcomp⟩⟩
      | none =>
        exact ih (fun x hx => hsub x (List.mem_cons_of_mem a hx)) hrest

theorem findFrom_append (l s : List Char) {whole t : String}
    (h : findFrom l = some [whole, t]) :
    (∃ whole2 t2, findFrom (l ++ s) = some [whole2, t2] ∧
      (t2 = t ∨ (t = "service" ∧ ∃ sub ∈ serviceSubCommands, t2 = "service " ++ sub)))
      ∧ matchStart (l ++ s) = matchStart l := by
  induction l with
  | nil =>
    rw [findFrom, matchHere_nil] at h
    simp at h
  | cons a l ih =>
    rw [findFrom] at h
    cases hm : matchHere commandAlternatives (a :: l) with
    | some m =>
      rw [hm] at h
      simp only [Option.some.injEq] at h
      subst h
      obtain ⟨whole2, t2, h2, hor⟩ := matchHere_append commandAlternatives (fun _ hx => hx) s hm
      have h2c : matchHere commandAlternatives (a :: (l ++ s)) = some [whole2, t2] := h2
      refine ⟨⟨whole2, t2, ?_, hor⟩, ?_⟩
      · rw [List.cons_append, findFrom, h2c]
      · rw [List.cons_append, matchStart, matchStart, h2c, hm]
    | none =>
      rw [hm] at h
      obtain ⟨pre, t1, c, rest, _, hc, hl, _⟩ := findFrom_some h
      have hu : a :: l = (a :: (pre ++ t1.data)) ++ c :: rest := by
        rw [hl]; simp
      have hnone := matchHere_none_append s hm hc hu
      have hnonec : matchHere commandAlternatives (a :: (l ++ s)) = none := hnone
      obtain ⟨hex, hstart⟩ := ih h
      refine ⟨?_, ?_⟩
      · rw [List.cons_append, findFrom, hnonec]
        exact hex
      · rw [List.cons_append, matchStart, matchStart, hnonec, hm, hstart]

/-- Claim C18, as stated, fails: the leading word of the line docker run is not a recognised
token, yet getRegexGroups extracts the command run from it and completer returns the table of
run instead of the root-command list. -/
theorem C18_counterexample :
    leadingWord "docker run " = "docker"
      ∧ leadingWord "docker run " ∉ commandAlternatives
      ∧ getRegexGroups "docker run " = some [("command", "run")]
      ∧ (completer sampleEnv ⟨"docker run ", ""⟩ initWorld).1 = tableRun
      ∧ (completer sampleEnv ⟨"docker run ", ""⟩ initWorld).1 ≠ suggestions := by
  refine ⟨by decide, by decide, by decide, ?_, ?_⟩
  · rfl
  · decide

/-- Claim C18, amended. For every line in which no recognised token is followed by a whitespace
character at any position, getRegexGroups yields no context and completer falls back to the
root-command list filtered by the word; for the line frobnicate with a space and the empty word
the result is the whole root-command list. -/
theorem C18_no_token_falls_back (env : Env) (line word : String) (w : World)
    (hno : ∀ (pre : List Char) (t : String) (c : Char) (rest : List Char),
      t ∈ commandAlternatives → isSpace c = true → line.data ≠ pre ++ t.data ++ c :: rest) :
    getRegexGroups line = none
      ∧ completer env ⟨line, word⟩ w =
          (suggestions.filter (fun s => beginsWithIgnoringCase env.caseTable s.Text word), w)
      ∧ getRegexGroups "frobnicate " = none
      ∧ completer env ⟨"frobnicate ", ""⟩ w = (suggestions, w) := by
  have hg : getRegexGroups line = none := by
    cases hf : findFrom line.data with
    | none => exact getRegexGroups_none_of_findFrom hf
    | some m =>
      obtain ⟨pre, t, c, rest, ht, hc, hs, _⟩ := findFrom_some hf
      exact absurd hs (hno pre t c rest ht hc)
  have hfrob : getRegexGroups "frobnicate " = none := by decide
  refine ⟨hg, ?_, hfrob, ?_⟩
  · simp [completer, hg, filterHasPrefix_eq]
  · simp [completer, hfrob, FilterHasPrefix, filterSuggestions]

theorem C18_witness :
    (∀ (pre : List Char) (t : String) (c : Char) (rest : List Char),
        t ∈ commandAlternatives → isSpace c = true →
          "frobnicate x".data ≠ pre ++ t.data ++ c :: rest)
      ∧ getRegexGroups "frobnicate x" = none
      ∧ completer sampleEnv ⟨"frobnicate x", "x"⟩ initWorld =
          (suggestions.filter (fun s => beginsWithIgnoringCase sampleEnv.caseTable s.Text "x"),
            initWorld) :=
  have hno : ∀ (pre : List Char) (t : String) (c : Char) (rest : List Char),
      t ∈ commandAlternatives → isSpace c = true →
        "frobnicate x".data ≠ pre ++ t.data ++ c :: rest :=
    fun pre t c rest ht hc heq =>
      findFrom_ne_none_of_occurrence pre t c rest ht hc (heq ▸ (by decide))
  ⟨hno, (C18_no_token_falls_back sampleEnv "frobnicate x" "x" initWorld hno).1,
    (C18_no_token_falls_back sampleEnv "frobnicate x" "x" initWorld hno).2.1⟩

/-- Claim C19. When getRegexGroups returns the command c on a line, it returns a command on the
line extended by any suffix, and the match starts at the same index; the command is again c,
unless c is service and the suffix completes a compound token service sub at that index, which
is then the command. -/
theorem C19_suffix_keeps_context (line s : String) (c : String)
    (h : commandOf line = some c) :
    (commandOf (line ++ s) = some c
        ∨ (c = "service" ∧ ∃ sub ∈ serviceSubCommands,
            commandOf (line ++ s) = some ("service " ++ sub)))
      ∧ matchStart (line ++ s).data = matchStart line.data
      ∧ (c ≠ "service" → commandOf (line ++ s) = some c) := by
  obtain ⟨whole, hf⟩ := (commandOf_eq_some_iff line c).mp h
  obtain ⟨⟨whole2, t2, hf2, hor⟩, hstart⟩ := findFrom_append line.data s.data hf
  have hdata : (line ++ s).data = line.data ++ s.data := String.data_append line s
  rw [← hdata] at hf2 hstart
  have hcmd2 : commandOf (line ++ s) = some t2 :=
    (commandOf_eq_some_iff (line ++ s) t2).mpr ⟨whole2, hf2⟩
  refine ⟨?_, hstart, ?_⟩
  · rcases hor with h1 | ⟨h1, sub, hsub, h2⟩
    · left; rw [hcmd2, h1]
    · right; exact ⟨h1, sub, hsub, by rw [hcmd2, h2]⟩
  · intro hne
    rcases hor with h1 | ⟨h1, _⟩
    · rw [hcmd2, h1]
    · exact absurd h1 hne

theorem C19_witness :
    (commandOf "run --rm" = some "run"
        ∧ commandOf ("run --rm" ++ " ubuntu ps ") = some "run"
        ∧ matchStart ("run --rm" ++ " ubuntu ps ").data = matchStart "run --rm".data)
      ∧ (commandOf "service " = some "service"
        ∧ (commandOf ("service " ++ "ls ") = some "service"
          ∨ ("service" = "service" ∧ ∃ sub ∈ serviceSubCommands,
              commandOf ("service " ++ "ls ") = some ("service " ++ sub)))
        ∧ commandOf ("service " ++ "ls ") = some "service ls") :=
  ⟨⟨by decide,
      (C19_suffix_keeps_context "run --rm" " ubuntu ps " "run" (by decide)).2.2 (by decide),
      (C19_suffix_keeps_context "run --rm" " ubuntu ps " "run" (by decide)).2.1⟩,
    ⟨by decide,
      (C19_suffix_keeps_context "service " "ls " "service" (by decide)).1,
      by decide⟩⟩

/-! ## Distinct texts -/

set_option maxRecDepth 1000000 in
theorem static_texts_nodup :
    (textsOf suggestions).Nodup ∧ ∀ p ∈ subCommands, (textsOf p.2).Nodup := by
  decide

theorem texts_filter_nodup (l : List Suggest) (p : Suggest → Bool)
    (h : (textsOf l).Nodup) : (textsOf (l.filter p)).Nodup := by
  unfold textsOf at h ⊢
  exact List.Nodup.sublist (List.Sublist.map _ (List.filter_sublist l)) h

theorem lookup_mem {c : String} {table : List Suggest} (h : subCommandsLookup c = some table) :
    (c, table) ∈ subCommands := by
  unfold subCommandsLookup at h
  generalize subCommands = l at h
  induction l with
  | nil => simp [List.lookup] at h
  | cons p l ih =>
    obtain ⟨k, v⟩ := p
    rw [List.lookup] at h
    split at h
    · rename_i heq
      simp only [Option.some.injEq] at h
      have hk : c = k := by simpa using heq
      subst hk; subst h
      exact List.mem_cons_self _ _
    · exact List.mem_cons_of_mem _ (ih h)

/-- Claim C21, as stated, fails: when the runtime search answers with the same name twice,
completer on the line pull ubu returns the text ubuntu twice. -/
theorem C21_counterexample :
    textsOf (completer duplicateSearchEnv ⟨"pull ubu", "ubu"⟩ initWorld).1 = ["ubuntu", "ubuntu"]
      ∧ ¬ (textsOf (completer duplicateSearchEnv ⟨"pull ubu", "ubu"⟩ initWorld).1).Nodup := by
  refine ⟨by decide, by decide⟩

/-- Claim C21, amended. The root-command list and every table of subCommands contain no repeated
text, so the texts completer returns are pairwise distinct on every line without context and
on every line whose command is none of exec, stop, start and pull; the lists of the lister and
of the catalog search are not deduplicated, and their texts are pairwise distinct whenever the
container IDs, respectively the names of the search results, are. -/
theorem C21_texts_distinct (env : Env) (d : Document) (w : World) :
    (textsOf suggestions).Nodup
      ∧ (∀ p ∈ subCommands, (textsOf p.2).Nodup)
      ∧ (commandOf d.Text = none → (textsOf (completer env d w).1).Nodup)
      ∧ (∀ c, commandOf d.Text = some c → c ∉ ["exec", "stop", "start", "pull"] →
          (textsOf (completer env d w).1).Nodup)
      ∧ (∀ all, ((env.ContainerList ⟨all⟩).1.map (fun c => c.ID)).Nodup →
          (textsOf (containerListCompleter env all w).1).Nodup)
      ∧ (∀ term count, ((searchResultsOf env term w).map (fun r => r.Name)).Nodup →
          (textsOf (imageFetchCompleter env term count w).1).Nodup) := by
  obtain ⟨hroot, htables⟩ := static_texts_nodup
  refine ⟨hroot, htables, ?_, ?_, ?_, ?_⟩
  · intro hnone
    have hg : getRegexGroups d.Text = none := by
      cases hg : getRegexGroups d.Text with
      | none => rfl
      | some g => simp [commandOf, hg] at hnone
    have hc : completer env d w =
        (suggestions.filter
          (fun s => beginsWithIgnoringCase env.caseTable s.Text d.WordBeforeCursor), w) := by
      simp [completer, hg, filterHasPrefix_eq]
    rw [hc]
    exact texts_filter_nodup _ _ hroot
  · intro c hcmd hnot
    obtain ⟨_, hmem⟩ := commandOf_some hcmd
    obtain ⟨hport, hsome⟩ := alternatives_registered c hmem
    obtain ⟨table, htable⟩ := Option.isSome_iff_exists.mp hsome
    simp only [List.mem_cons, List.mem_singleton, List.not_mem_nil, or_false, not_or] at hnot
    have hc : completer env d w =
        (table.filter
          (fun s => beginsWithIgnoringCase env.caseTable s.Text d.WordBeforeCursor), w) := by
      rw [completer_of_command env d w c hcmd]
      simp [hnot.1, hnot.2.1, hnot.2.2.1, hnot.2.2.2, hport, htable, filterHasPrefix_eq]
    rw [hc]
    exact texts_filter_nodup _ _ (htables (c, table) (lookup_mem htable))
  · intro all h
    rw [containerListCompleter_eq]
    simpa [textsOf, List.map_map, Function.comp_def] using h
  · intro term count h
    rw [imageFetchCompleter_list]
    simpa [textsOf, taggedSuggest, List.map_map, Function.comp_def] using h

theorem C21_witness :
    commandOf "ru" = none
      ∧ (textsOf (completer sampleEnv ⟨"ru", "r"⟩ initWorld).1).Nodup
      ∧ (commandOf "run -" = some "run" ∧ "run" ∉ ["exec", "stop", "start", "pull"]
        ∧ (textsOf (completer sampleEnv ⟨"run -", "-"⟩ initWorld).1).Nodup)
      ∧ (((sampleEnv.ContainerList ⟨false⟩).1.map (fun c => c.ID)).Nodup
        ∧ (textsOf (containerListCompleter sampleEnv false initWorld).1).Nodup)
      ∧ (((searchResultsOf sampleEnv "ubu" initWorld).map (fun r => r.Name)).Nodup
        ∧ (textsOf (imageFetchCompleter sampleEnv "ubu" 10 initWorld).1).Nodup) :=
  ⟨by decide,
    (C21_texts_distinct sampleEnv ⟨"ru", "r"⟩ initWorld).2.2.1 (by decide),
    ⟨by decide, by decide,
      (C21_texts_distinct sampleEnv ⟨"run -", "-"⟩ initWorld).2.2.2.1 "run" (by decide)
        (by decide)⟩,
    ⟨by decide,
      (C21_texts_distinct sampleEnv ⟨"", ""⟩ initWorld).2.2.2.2.1 false (by decide)⟩,
    ⟨by decide,
      (C21_texts_distinct sampleEnv ⟨"", ""⟩ initWorld).2.2.2.2.2 "ubu" 10 (by decide)⟩⟩

/-! ## What a resolution changes -/

/-- Claim C22. On every line whose extracted command is not pull, lines without context
included, completer leaves the items of the cache as they were and makes no catalog search: the
external calls it adds, if any, are listings of the runtime. -/
theorem C22_cache_untouched_without_pull (env : Env) (d : Document) (w : World)
    (h : commandOf d.Text ≠ some "pull") :
    (completer env d w).2.items = w.items
      ∧ ∃ added, (completer env d w).2.calls = w.calls ++ added
          ∧ (added.all (fun c => !c.isCatalogSearch)) = true := by
  cases hcmd : commandOf d.Text with
  | none =>
    have hg : getRegexGroups d.Text = none := by
      cases hg : getRegexGroups d.Text with
      | none => rfl
      | some g => simp [commandOf, hg] at hcmd
    have hc : (completer env d w).2 = w := by simp [completer, hg]
    rw [hc]
    exact ⟨rfl, [], by simp, rfl⟩
  | some c =>
    have hne : c ≠ "pull" := by
      intro hc
      rw [hcmd, hc] at h
      exact h rfl
    rw [completer_of_command env d w c hcmd]
    split_ifs
    · rw [containerListCompleter_eq]
      exact ⟨rfl, [Call.ContainerList ⟨false⟩ none], rfl, rfl⟩
    · rw [containerListCompleter_eq]
      exact ⟨rfl, [Call.ContainerList ⟨true⟩ none], rfl, rfl⟩
    · cases subCommandsLookup c <;> exact ⟨rfl, [], by simp, rfl⟩

theorem C22_witness :
    commandOf "exec " ≠ some "pull"
      ∧ (completer sampleEnv ⟨"exec ", ""⟩ staleWorld).2.items = staleWorld.items :=
  ⟨by decide, (C22_cache_untouched_without_pull sampleEnv ⟨"exec ", ""⟩ staleWorld (by decide)).1⟩

/-- Claim C23. The call containerListCompleter makes to the runtime carries no deadline at all:
it is made under the background context, for either flag, while the search of the runtime in
imageFromContext carries two seconds; so does the call completer makes on the line exec. -/
theorem C23_lister_without_deadline :
    (∀ (env : Env) (all : Bool) (w : World),
        (containerListCompleter env all w).2.calls =
          w.calls ++ [Call.ContainerList ⟨all⟩ none])
      ∧ (∀ all : Bool, (Call.ContainerList ⟨all⟩ none).deadline = none)
      ∧ (completer sampleEnv ⟨"exec ", ""⟩ initWorld).2.calls.map Call.deadline = [none]
      ∧ (imageFromContext sampleEnv "ubu" 10 initWorld).2.calls.map Call.deadline =
          [some (2 * Second)] := by
  refine ⟨?_, ?_, by decide, by decide⟩
  · intro env all w
    rw [containerListCompleter_eq]
    rfl
  · intro all
    rfl

/-! ## The registry and the dispatch -/

set_option maxRecDepth 100000 in
theorem registry_keys :
    (∀ t ∈ subCommands.map (fun p => p.1), t ∈ commandAlternatives)
      ∧ (∀ t ∈ commandAlternatives, t ∈ subCommands.map (fun p => p.1))
      ∧ (subCommands.map (fun p => p.1)).Nodup := by
  decide

/-- Claim C25. The keys of subCommands are exactly the alternatives of commandExpression, so on
every line with an extracted command the lookup of that command in the registry succeeds, and
completer answers from the lister, the cache or the table of the command, never from the
root-command list. -/
theorem C25_lookup_never_fails (env : Env) (d : Document) (w : World) (c : String)
    (h : commandOf d.Text = some c) :
    (∀ t, t ∈ subCommands.map (fun p => p.1) ↔ t ∈ commandAlternatives)
      ∧ ∃ table, subCommandsLookup c = some table
          ∧ completer env d w =
              if c = "exec" ∨ c = "stop" then containerListCompleter env false w
              else if c = "start" then containerListCompleter env true w
              else if c = "pull" then
                (if d.WordBeforeCursor ≠ c then getFromCache env d.WordBeforeCursor w
                  else getFromCache env "" w)
              else (FilterHasPrefix env.caseTable table d.WordBeforeCursor true, w) := by
  obtain ⟨h1, h2, _⟩ := registry_keys
  refine ⟨fun t => ⟨h1 t, h2 t⟩, ?_⟩
  obtain ⟨_, hmem⟩ := commandOf_some h
  obtain ⟨hport, hsome⟩ := alternatives_registered c hmem
  obtain ⟨table, htable⟩ := Option.isSome_iff_exists.mp hsome
  refine ⟨table, htable, ?_⟩
  rw [completer_of_command env d w c h]
  simp only [hport, or_false, htable]

theorem C25_witness :
    commandOf "service ps " = some "service ps"
      ∧ ∃ table, subCommandsLookup "service ps" = some table
          ∧ completer sampleEnv ⟨"service ps ", ""⟩ initWorld =
              if "service ps" = "exec" ∨ "service ps" = "stop" then
                containerListCompleter sampleEnv false initWorld
              else if "service ps" = "start" then containerListCompleter sampleEnv true initWorld
              else if "service ps" = "pull" then
                (if (⟨"service ps ", ""⟩ : Document).WordBeforeCursor ≠ "service ps" then
                  getFromCache sampleEnv (⟨"service ps ", ""⟩ : Document).WordBeforeCursor
                    initWorld
                  else getFromCache sampleEnv "" initWorld)
              else (FilterHasPrefix sampleEnv.caseTable table
                (⟨"service ps ", ""⟩ : Document).WordBeforeCursor true, initWorld) :=
  ⟨by decide,
    (C25_lookup_never_fails sampleEnv ⟨"service ps ", ""⟩ initWorld "service ps" (by decide)).2⟩

/-- Claim C26. The word port is not an alternative of commandExpression, so no line yields the
command port and the comparison with port in completer never holds; on the line port with a
space and the empty word completer returns the whole root-command list and leaves the world,
the log of external calls included, as it was. -/
theorem C26_port_never_extracted (env : Env) (w : World) (line : String) :
    "port" ∉ commandAlternatives
      ∧ commandOf line ≠ some "port"
      ∧ getRegexGroups "port " = none
      ∧ completer env ⟨"port ", ""⟩ w = (suggestions, w)
      ∧ (completer env ⟨"port ", ""⟩ w).2.calls = w.calls := by
  have hnot : "port" ∉ commandAlternatives := by decide
  have hg : getRegexGroups "port " = none := by decide
  have hc : completer env ⟨"port ", ""⟩ w = (suggestions, w) := by
    simp [completer, hg, FilterHasPrefix, filterSuggestions]
  refine ⟨hnot, ?_, hg, hc, by rw [hc]⟩
  intro hcon
  exact hnot (commandOf_some hcon).2

/-- Claim C27. On a line whose extracted command is exec, stop, start or pull, completer does not
consult the table the registry holds for that command: the result is that of the lister, with
flag false for exec and stop and true for start, or that of the cache for pull; the line exec --
with the word -- yields the container list, the line pull -- with the word -- the catalog search
for the term --. -/
theorem C27_tables_unreachable (env : Env) (d : Document) (w : World) (c : String)
    (h : commandOf d.Text = some c) (hc : c ∈ ["exec", "stop", "start", "pull"]) :
    (subCommandsLookup c).isSome = true
      ∧ completer env d w =
          (if c = "pull" then
            getFromCache env (if d.WordBeforeCursor ≠ "pull" then d.WordBeforeCursor else "") w
          else containerListCompleter env (decide (c = "start")) w)
      ∧ completer env ⟨"exec --", "--"⟩ w = containerListCompleter env false w
      ∧ completer env ⟨"pull --", "--"⟩ w = getFromCache env "--" w
      ∧ (completer sampleEnv ⟨"exec --", "--"⟩ initWorld).1 =
          [⟨"4f2a", "nginx"⟩, ⟨"9c1d", "redis"⟩]
      ∧ (completer sampleEnv ⟨"pull --", "--"⟩ initWorld).2.calls =
          [Call.ImageSearch "--" ⟨10⟩ (some (2 * Second))] := by
  have hexec : completer env ⟨"exec --", "--"⟩ w = containerListCompleter env false w := by
    rw [completer_of_command env ⟨"exec --", "--"⟩ w "exec" (by decide)]
    simp
  have hpull : completer env ⟨"pull --", "--"⟩ w = getFromCache env "--" w := by
    rw [completer_of_command env ⟨"pull --", "--"⟩ w "pull" (by decide)]
    simp
  refine ⟨?_, ?_, hexec, hpull, by decide, by decide⟩
  · exact (alternatives_registered c (commandOf_some h).2).2
  · rw [completer_of_command env d w c h]
    simp only [List.mem_cons, List.mem_singleton, List.not_mem_nil, or_false] at hc
    rcases hc with hc | hc | hc | hc <;> subst hc <;> simp
    by_cases hw : d.WordBeforeCursor = "pull" <;> simp [hw]

theorem C27_witness :
    commandOf "stop 4" = some "stop" ∧ "stop" ∈ ["exec", "stop", "start", "pull"]
      ∧ completer sampleEnv ⟨"stop 4", "4"⟩ initWorld =
          (if "stop" = "pull" then
            getFromCache sampleEnv
              (if (⟨"stop 4", "4"⟩ : Document).WordBeforeCursor ≠ "pull" then
                (⟨"stop 4", "4"⟩ : Document).WordBeforeCursor else "") initWorld
          else containerListCompleter sampleEnv (decide ("stop" = "start")) initWorld) :=
  ⟨by decide, by decide,
    (C27_tables_unreachable sampleEnv ⟨"stop 4", "4"⟩ initWorld "stop" (by decide)
      (by decide)).2.1⟩

/-! ## The cache key and cached failures -/

theorem cacheKeyOf_nonempty {word : String} (h : word ≠ "") :
    cacheKeyOf word = "completer:" ++ word := by
  simp [cacheKeyOf, h]

theorem prefixed_ne_all (word : String) : "completer:" ++ word ≠ "all" := by
  intro h
  have hd := congrArg String.data h
  rw [String.data_append] at hd
  have hh := congrArg List.head? hd
  have hc : ("completer:".data ++ word.data).head? = some 'c' := rfl
  rw [hc] at hh
  exact absurd hh (by decide)

theorem prefixed_injective {a b : String} (h : "completer:" ++ a = "completer:" ++ b) :
    a = b := by
  have hd := congrArg String.data h
  rw [String.data_append, String.data_append] at hd
  exact string_eq_of_data (List.append_cancel_left hd)

/-- Claim C28. The key getFromCache computes is all for the empty term and completer: followed by
the term for every other term; two terms with the same key are the same term, and no non-empty
term, the term all included, has the key of the empty term. -/
theorem C28_cache_key_injective (w1 w2 : String) :
    cacheKeyOf "" = "all"
      ∧ (w1 ≠ "" → cacheKeyOf w1 = "completer:" ++ w1)
      ∧ (cacheKeyOf w1 = cacheKeyOf w2 → w1 = w2)
      ∧ (w1 ≠ "" → cacheKeyOf w1 ≠ cacheKeyOf "")
      ∧ cacheKeyOf "all" = "completer:all" := by
  have h0 : cacheKeyOf "" = "all" := by decide
  refine ⟨h0, cacheKeyOf_nonempty, ?_, ?_, by decide⟩
  · intro h
    by_cases h1 : w1 = "" <;> by_cases h2 : w2 = ""
    · rw [h1, h2]
    · rw [h1, h0, cacheKeyOf_nonempty h2] at h
      exact absurd h.symm (prefixed_ne_all w2)
    · rw [h2, h0, cacheKeyOf_nonempty h1] at h
      exact absurd h (prefixed_ne_all w1)
    · rw [cacheKeyOf_nonempty h1, cacheKeyOf_nonempty h2] at h
      exact prefixed_injective h
  · intro h1
    rw [h0, cacheKeyOf_nonempty h1]
    exact prefixed_ne_all w1

theorem C28_witness :
    "all" ≠ "" ∧ cacheKeyOf "all" = "completer:" ++ "all"
      ∧ cacheKeyOf "all" ≠ cacheKeyOf "" :=
  ⟨by decide, (C28_cache_key_injective "all" "").2.1 (by decide),
    (C28_cache_key_injective "all" "").2.2.2.1 (by decide)⟩

theorem imageFetchCompleter_of_searchFails (env : Env) (word : String) (count : Nat)
    (w : World) (h : searchFails env word = true) :
    (imageFetchCompleter env word count w).1 = [] := by
  by_cases hw : word = ""
  · subst hw
    have hnone : env.httpDo hubListingRequest = none := by
      simpa [searchFails] using h
    exact (imageFetchCompleter_checked_errors env count w).1 hnone
  · have herr : (env.ImageSearch word ⟨10⟩).2 ≠ none := by
      simp only [searchFails, hw, if_false] at h
      intro hcon
      rw [hcon] at h
      simp at h
    exact (imageFetchCompleter_checked_errors env count w).2 word hw herr

/-- Claim C29. When the search made on a miss fails, getFromCache returns the empty list and
stores it under the key of the term like any result, with the expiry UnixNano of the store time
plus five minutes, which is that time itself while it is within the int64 range; whatever
happens in between, every getFromCache on that term up to five minutes after the store returns
the empty list and makes no new search. -/
theorem C29_failure_is_cached (env : Env) (word : String) (w : World)
    (hmiss : memoryCache.Get w.items w.now (cacheKeyOf word) = none)
    (hfail : searchFails env word = true)
    (es : List Event) (env2 : Env)
    (hwin : ((run es (getFromCache env word w).2).now : Int) ≤
      ((getFromCache env word w).2.now : Int) + 5 * Minute) :
    (getFromCache env word w).1 = []
      ∧ (getFromCache env word w).2.items (cacheKeyOf word) =
          some ⟨[], UnixNano (((getFromCache env word w).2.now : Int) + 5 * Minute)⟩
      ∧ (((getFromCache env word w).2.now : Int) + 5 * Minute ≤ maxInt64 →
          (getFromCache env word w).2.items (cacheKeyOf word) =
            some ⟨[], ((getFromCache env word w).2.now : Int) + 5 * Minute⟩)
      ∧ getFromCache env2 word (run es (getFromCache env word w).2) =
          ([], run es (getFromCache env word w).2) := by
  have hempty := imageFetchCompleter_of_searchFails env word 10 w hfail
  have hres : (getFromCache env word w).1 = [] := by
    rw [getFromCache_miss env word w hmiss]
    exact hempty
  have hentry := getFromCache_miss_entry env word w hmiss
  rw [hempty] at hentry
  have hhit := hit_within_window env word w hmiss es env2 hwin
  rw [hempty] at hhit
  refine ⟨hres, hentry, ?_, hhit⟩
  intro hb
  have hm := five_minutes_pos
  rw [hentry, unixNano_of_bounded _ (by omega) hb]

theorem C29_witness :
    memoryCache.Get initWorld.items initWorld.now (cacheKeyOf "ubu") = none
      ∧ searchFails failingEnv "ubu" = true
      ∧ ((run [Event.wait 200000000000] (getFromCache failingEnv "ubu" initWorld).2).now : Int) ≤
          ((getFromCache failingEnv "ubu" initWorld).2.now : Int) + 5 * Minute
      ∧ getFromCache sampleEnv "ubu"
          (run [Event.wait 200000000000] (getFromCache failingEnv "ubu" initWorld).2) =
        ([], run [Event.wait 200000000000] (getFromCache failingEnv "ubu" initWorld).2)
      ∧ ((getFromCache failingEnv "ubu" initWorld).2.now : Int) + 5 * Minute ≤ maxInt64
      ∧ (getFromCache failingEnv "ubu" initWorld).2.items (cacheKeyOf "ubu") =
          some ⟨[], ((getFromCache failingEnv "ubu" initWorld).2.now : Int) + 5 * Minute⟩ :=
  have h := C29_failure_is_cached failingEnv "ubu" initWorld (by decide) (by decide)
    [Event.wait 200000000000] sampleEnv (by decide)
  ⟨by decide, by decide, by decide, h.2.2.2, by decide, h.2.2.1 (by decide)⟩

/-! ## The reference definition of the extractor -/

theorem readsHere_eq (s : List Char) (t : String) :
    readsHere s t = (matchAlt t s).isSome := by
  unfold readsHere matchAlt
  by_cases hp : t.data.isPrefixOf s = true
  · have htake : s.take t.data.length = t.data :=
      (List.prefix_iff_eq_take.mp (List.isPrefixOf_iff_prefix.mp hp)).symm
    rw [if_pos hp, htake]
    cases hd : s.drop t.data.length with
    | nil => simp
    | cons c rest =>
      by_cases hc : isSpace c = true <;> simp [hc]
  · have htake : (s.take t.data.length == t.data) = false := by
      by_contra hcon
      have heq : s.take t.data.length = t.data := by simpa using hcon
      apply hp
      apply List.isPrefixOf_iff_prefix.mpr
      rw [← heq]
      exact List.take_prefix _ _
    rw [if_neg hp, htake]
    simp

theorem matchHere_group (alts : List String) (s : List Char) :
    (matchHere alts s).bind (fun m => m[1]?) = alts.find? (fun t => readsHere s t) := by
  induction alts with
  | nil => simp [matchHere]
  | cons a as ih =>
    unfold matchHere at ih ⊢
    rw [List.findSome?_cons, List.find?_cons, readsHere_eq]
    cases hm : matchAlt a s with
    | some m =>
      obtain ⟨c, rest, _, _, hmm⟩ := matchAlt_some hm
      subst hmm
      simp
    | none =>
      simpa using ih

theorem reference_step (c : Char) (cs : List Char)
    (h : commandAlternatives.find? (fun t => readsHere (c :: cs) t) = none) :
    referenceCommand (c :: cs) = referenceCommand cs := by
  have hany : commandAlternatives.any (fun t => qualifiesAt (c :: cs) 0 t) = false := by
    rw [List.any_eq_false]
    intro t ht
    have := List.find?_eq_none.mp h t ht
    simpa [qualifiesAt] using this
  unfold referenceCommand
  rw [List.length_cons, List.range_succ_eq_map, List.find?_cons, hany]
  simp only [List.find?_map]
  have hfun : ((fun i => commandAlternatives.any (fun t => qualifiesAt (c :: cs) i t)) ∘
      Nat.succ) = fun i => commandAlternatives.any (fun t => qualifiesAt cs i t) := by
    funext i
    simp [qualifiesAt]
  rw [hfun]
  cases (List.range (cs.length + 1)).find?
      (fun i => commandAlternatives.any (fun t => qualifiesAt cs i t)) with
  | none => rfl
  | some i => simp [qualifiesAt]

theorem reference_here (c : Char) (cs : List Char) (t : String)
    (h : commandAlternatives.find? (fun t => readsHere (c :: cs) t) = some t) :
    referenceCommand (c :: cs) = some t := by
  have hany : commandAlternatives.any (fun t => qualifiesAt (c :: cs) 0 t) = true := by
    rw [List.any_eq_true]
    exact ⟨t, List.mem_of_find?_eq_some h, by simpa [qualifiesAt] using List.find?_some h⟩
  unfold referenceCommand
  rw [List.length_cons, List.range_succ_eq_map, List.find?_cons, hany]
  simpa [qualifiesAt] using h

theorem findFrom_group (s : List Char) :
    (findFrom s).bind (fun m => m[1]?) = referenceCommand s := by
  induction s with
  | nil =>
    rw [findFrom, matchHere_nil]
    decide
  | cons c cs ih =>
    have hg := matchHere_group commandAlternatives (c :: cs)
    rw [findFrom]
    cases hm : matchHere commandAlternatives (c :: cs) with
    | some m =>
      rw [hm] at hg
      obtain ⟨t, ch, rest, _, _, _, hmm⟩ := matchHere_some hm
      subst hmm
      simp only [Option.some_bind] at hg ⊢
      have ht : commandAlternatives.find? (fun t => readsHere (c :: cs) t) = some t := by
        rw [← hg]; rfl
      rw [reference_here c cs t ht]
      rfl
    | none =>
      rw [hm] at hg
      simp only [Option.none_bind] at hg
      rw [reference_step c cs hg.symm]
      exact ih

theorem getRegexGroups_eq_reference (line : String) :
    getRegexGroups line = (referenceCommand line.data).map (fun t => [("command", t)]) := by
  rw [← findFrom_group]
  cases hf : findFrom line.data with
  | none => simp [getRegexGroups_none_of_findFrom hf]
  | some m =>
    obtain ⟨pre, t, c, rest, _, _, _, hm⟩ := findFrom_some hf
    subst hm
    rw [getRegexGroups_of_findFrom hf]
    simp

theorem qualifiesAt_beyond (line : List Char) (i : Nat) (t : String)
    (h : line.length < i) : qualifiesAt line i t = false := by
  have hd : line.drop i = [] := List.drop_eq_nil_of_le (by omega)
  simp [qualifiesAt, readsHere, hd]

/-- Claim C24. The function getRegexGroups is the leftmost-first reference: it returns the map
with the single key command whose value is the token found at the smallest index at which some
token is followed by a whitespace character, the earliest in the alternation order among the
tokens that qualify there, and it returns nil exactly when no token qualifies at any index. -/
theorem C24_leftmost_first_reference (line : String) :
    getRegexGroups line = (referenceCommand line.data).map (fun t => [("command", t)])
      ∧ (getRegexGroups line = none ↔
          ∀ (i : Nat) (t : String), t ∈ commandAlternatives →
            qualifiesAt line.data i t = false)
      ∧ (∀ t, getRegexGroups line = some [("command", t)] →
          ∃ i before after, commandAlternatives = before ++ t :: after
            ∧ qualifiesAt line.data i t = true
            ∧ (∀ t2 ∈ before, qualifiesAt line.data i t2 = false)
            ∧ ∀ j, j < i → ∀ t2 ∈ commandAlternatives, qualifiesAt line.data j t2 = false) := by
  have heq := getRegexGroups_eq_reference line
  refine ⟨heq, ?_, ?_⟩
  · rw [heq]
    constructor
    · intro hnone i t ht
      by_cases hi : i < line.data.length + 1
      · have href : referenceCommand line.data = none := by
          cases hr : referenceCommand line.data with
          | none => rfl
          | some t => rw [hr] at hnone; simp at hnone
        unfold referenceCommand at href
        cases hfind : (List.range (line.data.length + 1)).find?
            (fun i => commandAlternatives.any (fun t => qualifiesAt line.data i t)) with
        | none =>
          have hall := List.find?_eq_none.mp hfind i (List.mem_range.mpr hi)
          simp only [List.any_eq_true, not_exists, not_and, Bool.not_eq_true] at hall
          exact hall t ht
        | some k =>
          rw [hfind] at href
          have hk := List.find?_some hfind
          simp only [List.any_eq_true] at hk
          obtain ⟨t2, ht2, hq⟩ := hk
          have := List.find?_eq_none.mp href t2 ht2
          exact absurd hq this
      · exact qualifiesAt_beyond line.data i t (by omega)
    · intro hall
      unfold referenceCommand
      have hfind : (List.range (line.data.length + 1)).find?
          (fun i => commandAlternatives.any (fun t => qualifiesAt line.data i t)) = none := by
        rw [List.find?_eq_none]
        intro i _
        simp only [List.any_eq_true, not_exists, not_and, Bool.not_eq_true]
        intro t ht
        exact hall i t ht
      rw [hfind]
      rfl
  · intro t hsome
    rw [heq] at hsome
    have href : referenceCommand line.data = some t := by
      cases hr : referenceCommand line.data with
      | none => rw [hr] at hsome; simp at hsome
      | some t2 =>
        rw [hr] at hsome
        simp only [Option.map_some', Option.some.injEq, List.cons.injEq, Prod.mk.injEq,
          true_and, and_true] at hsome
        rw [hsome]
    unfold referenceCommand at href
    cases hfind : (List.range (line.data.length + 1)).find?
        (fun i => commandAlternatives.any (fun t => qualifiesAt line.data i t)) with
    | none => rw [hfind] at href; simp at href
    | some i =>
      rw [hfind] at href
      simp only at href
      obtain ⟨hq, before, after, hsplit, hbefore⟩ := List.find?_eq_some.mp href
      obtain ⟨_, _, hmin⟩ := List.find?_range_eq_some.mp hfind
      refine ⟨i, before, after, hsplit, hq, ?_, ?_⟩
      · intro t2 ht2
        simpa using hbefore t2 ht2
      · intro j hj t2 ht2
        have := hmin j hj
        simp only [Bool.not_eq_true', List.any_eq_false] at this
        simpa using this t2 ht2

/-! ## The sub-command rm of service -/

theorem matchHere_of_firstAtUnder (alts : List String) (t p : String) (c : Char)
    (rest r : List Char) (hf : firstAtUnder alts t p = true) (hc : isSpace c = true)
    (htext : t.data ++ c :: rest = p.data ++ r) :
    matchHere alts (t.data ++ c :: rest) = some [⟨t.data ++ [c]⟩, t] := by
  induction alts with
  | nil => simp [firstAtUnder] at hf
  | cons a as ih =>
    unfold matchHere
    rw [List.findSome?_cons]
    by_cases hat : a = t
    · subst hat
      rw [matchAlt_self _ _ _ hc]
    · simp only [firstAtUnder, hat, if_false, Bool.and_eq_true, Bool.not_eq_true'] at hf
      have hnone : matchAlt a (t.data ++ c :: rest) = none := by
        rw [htext]
        exact matchAlt_none_of_incomparable a p r hf.1.1 hf.1.2
      rw [hnone]
      exact ih hf.2

set_option maxRecDepth 100000 in
theorem service_table_dashes (tbl : Char → Char) :
    tableService.filter (fun s => beginsWithIgnoringCase tbl s.Text "--") = [] := by
  rfl

/-- Claim C30. The text service rm is no alternative of commandExpression although rm is offered
in the table of service: on the line service rm followed by a space and any suffix the
extracted command is service, so completer on the line service rm with a space and the empty
word returns the nine suggestions of the service table once more, and on the line
service rm -- with the word -- it returns the empty list. -/
theorem C30_service_rm_is_service (env : Env) (w : World) (s : String) :
    commandOf ("service rm " ++ s) = some "service"
      ∧ "service rm" ∉ commandAlternatives
      ∧ "rm" ∈ textsOf tableService
      ∧ subCommandsLookup "service" = some tableService
      ∧ tableService.length = 9
      ∧ completer env ⟨"service rm ", ""⟩ w = (tableService, w)
      ∧ completer env ⟨"service rm --", "--"⟩ w = ([], w) := by
  have hcmd : ∀ s : String, commandOf ("service rm " ++ s) = some "service" := by
    intro s
    have hdata : ("service rm " ++ s).data = "service".data ++ ' ' :: ("rm ".data ++ s.data) := by
      rw [String.data_append]
      rfl
    have htext : "service".data ++ ' ' :: ("rm ".data ++ s.data) =
        "service rm".data ++ (' ' :: s.data) := rfl
    have hm := matchHere_of_firstAtUnder commandAlternatives "service" "service rm" ' '
      ("rm ".data ++ s.data) (' ' :: s.data) (by decide) (by decide) htext
    have hf := findFrom_of_matchHere hm
    rw [← hdata] at hf
    exact (commandOf_eq_some_iff _ _).mpr ⟨_, hf⟩
  have htable : subCommandsLookup "service" = some tableService := rfl
  have h1 : commandOf "service rm " = some "service" := hcmd ""
  have h2 : commandOf "service rm --" = some "service" := hcmd "--"
  refine ⟨hcmd s, by decide, by decide, htable, by decide, ?_, ?_⟩
  · rw [completer_of_command env ⟨"service rm ", ""⟩ w "service" h1]
    simp [htable, FilterHasPrefix, filterSuggestions]
  · rw [completer_of_command env ⟨"service rm --", "--"⟩ w "service" h2]
    simp [htable, filterHasPrefix_eq, service_table_dashes]

end DockerShell
